import Mathlib

/-!
# petro-gps_gate

A shallow embedding of the geofence entry lifecycle (`src/processor/vehicle.js`),
the entry reconciliation pass (`src/processor/entriesCleanup.js`), the Entry Store
calls (`src/database/supabase.js`) and the MJPEG frame demuxer of `captureVehicle`.

Asynchronous functions become functions from a `World` to a `Res`: the value returned
(or `none` when the call threw), the world afterwards, and the log of the calls made to
the external collaborators, in the order they were issued.  Times are milliseconds
since the epoch, as `Date` subtraction yields them.
-/

namespace GpsGate

/-! ## Data model -/

/-- A row of the `entries` table, as `getLastRecentEntries` returns it. -/
structure Entry where
  id : Nat
  plate_number : String
  station : String
  in_time : Int
  out_time : Option Int
  isInside : Bool
deriving DecidableEq, Repr

/-- The record `checkIn` hands to `insertEntry`: an entry that has no id yet. -/
structure NewEntry where
  plate_number : String
  station : String
  in_time : Int
  out_time : Option Int
  isInside : Bool
deriving DecidableEq, Repr

/-- The `location` object of a telemetry payload; a field that is absent is `none`. -/
structure Location where
  latitude : Option String
  longitude : Option String
  speed : Option String
  direct : Option String
deriving DecidableEq, Repr

/-- The payload of an upstream message, as handed to `checkVehicle`. -/
structure Vehicle where
  deviceID : Option String
  location : Option Location
deriving DecidableEq, Repr

/-- The object built by `createVehicleUpdate`. -/
structure VehicleUpdate where
  deviceID : Option String
  latitude : Option String
  longitude : Option String
  speed : Option String
  direct : Option String
deriving DecidableEq, Repr

/-- One element of `sgn_stations`: the station code is the single key of the object. -/
structure Station where
  code : String
  name : String
  latitude : String
  longitude : String
deriving DecidableEq, Repr

/-- A call made to an external collaborator (Entry Store, Downstream Hub, capture). -/
inductive Effect where
  | getLastRecentEntries (limit : Nat)
  | insertEntry (entry : NewEntry)
  | updateEntry (entry : Entry)
  | deleteEntry (id : Nat)
  | emitVehicleUpdate (vehicleData : VehicleUpdate)
  | emitVehicleEntries (entries : List Entry) (appended : List NewEntry)
  | captureVehicle (plateNumber : String) (rtspUrl : String) (checkIn : Bool)
  | spawn (plateNumber : String) (rtspUrl : String) (checkIn : Bool)
deriving DecidableEq, Repr

/-- The mutable state: the `entries` table with the id the store assigns next, the
number of store calls and of clock readings made so far, and the module-level
variables `LAST_CLEANUP_TIME`, `downstream` and `activeRecordings`. -/
structure World where
  rows : List Entry
  nextId : Nat
  calls : Nat
  ticks : Nat
  LAST_CLEANUP_TIME : Option Int
  downstream : Bool
  activeRecordings : List String
deriving DecidableEq, Repr

/-- What the code cannot decide: which store calls fail (by call number), what the
clock reads (by reading number), the distance helper of `ultils/index.js`, which is
not among the sources (`none` is `NaN`; it receives the station coordinates as the
strings `parseFloat` is applied to), and the two camera URLs of the process
environment. -/
structure Env where
  fails : Nat → Bool
  clock : Nat → Int
  getDistanceMeters : Option String → Option String → String → String → Option ℚ
  rtsp_cam_in : String
  rtsp_cam_out : String

/-- The result of running an asynchronous function: `value = none` when it threw. -/
structure Res (α : Type) where
  value : Option α
  world : World
  log : List Effect

/-- An asynchronous function of the program. -/
abbrev M (α : Type) : Type := World → Res α

/-- A function that returns `a` without touching anything. -/
def M.pure {α : Type} (a : α) : M α := fun w => ⟨some a, w, []⟩

/-- Sequencing (`await`): an exception of the first part skips the second. -/
def M.bind {α β : Type} (m : M α) (f : α → M β) : M β := fun w =>
  match m w with
  | ⟨none, w1, l1⟩ => ⟨none, w1, l1⟩
  | ⟨some a, w1, l1⟩ => ⟨(f a w1).value, (f a w1).world, l1 ++ (f a w1).log⟩

instance : Monad M where
  pure := M.pure
  bind := M.bind

/-- The expression `new Date()`: the next reading of the clock. -/
def newDate (env : Env) : M Int := fun w =>
  ⟨some (env.clock w.ticks), { w with ticks := w.ticks + 1 }, []⟩

/-- Reading the module variable `LAST_CLEANUP_TIME` (`none` is the initial `''`). -/
def readLastCleanup : M (Option Int) := fun w => ⟨some w.LAST_CLEANUP_TIME, w, []⟩

/-- The assignment `LAST_CLEANUP_TIME = t`. -/
def setLastCleanup (t : Int) : M Unit := fun w =>
  ⟨some (), { w with LAST_CLEANUP_TIME := some t }, []⟩

/-! ## Configuration (`src/config/index.js`) -/

def sgn_vehicles : List String :=
  ["SGN-32001", "SGN-32002", "SGN-32003", "SGN-32006", "SGN-32008", "SGN-32009", "SGN-32015"]

/-- The single station of `sgn_stations`. -/
def stationSGN : Station := ⟨"SGN", "SGN", "10.820397678344829", "106.67308348033158"⟩

def sgn_stations : List Station := [stationSGN]

/-- The constant `CONFIG.STATION_RADIUS_METERS`. -/
def STATION_RADIUS_METERS : ℚ := 90

/-- The constant `CONFIG.CLEANUP_INTERVAL_MS`. -/
def CLEANUP_INTERVAL_MS : Int := 5 * 60 * 1000

/-- The constant `MS_FIVE_MINUTES` of `entriesCleanup.js`. -/
def MS_FIVE_MINUTES : Int := 5 * 60 * 1000

/-- The variable `isFirstStart` of `vehicle.js`: set to `false` and never assigned. -/
def isFirstStart : Bool := false

/-! ## Entry Store (`src/database/supabase.js`) -/

/-- The query `.order('id', { ascending: false }).limit(limit)`. -/
def recentRows (limit : Nat) (rows : List Entry) : List Entry :=
  (List.insertionSort (fun a b : Entry => b.id ≤ a.id) rows).take limit

/-- The row the store creates for an inserted record. -/
def NewEntry.withId (e : NewEntry) (id : Nat) : Entry :=
  ⟨id, e.plate_number, e.station, e.in_time, e.out_time, e.isInside⟩

/-- A store call: it is logged, counted, and throws when the store reports an error. -/
def storeCall {α : Type} (env : Env) (eff : Effect) (f : World → α × World) : M α := fun w =>
  let w1 := { w with calls := w.calls + 1 }
  if env.fails w.calls then ⟨none, w1, [eff]⟩ else ⟨some (f w1).1, (f w1).2, [eff]⟩

def getLastRecentEntries (env : Env) (limit : Nat) : M (List Entry) :=
  storeCall env (.getLastRecentEntries limit) fun w => (recentRows limit w.rows, w)

def insertEntry (env : Env) (entry : NewEntry) : M Bool :=
  storeCall env (.insertEntry entry) fun w =>
    (true, { w with rows := w.rows ++ [entry.withId w.nextId], nextId := w.nextId + 1 })

def updateEntry (env : Env) (entry : Entry) : M Bool :=
  storeCall env (.updateEntry entry) fun w =>
    (true, { w with rows := w.rows.map fun r => if r.id = entry.id then entry else r })

def deleteEntry (env : Env) (id : Nat) : M Bool :=
  storeCall env (.deleteEntry id) fun w =>
    (true, { w with rows := w.rows.filter fun r => decide (r.id ≠ id) })

/-! ## Downstream Hub (`src/ws/downstream/index.js`) -/

def emitVehicleUpdate (vehicleData : VehicleUpdate) : M Unit := fun w =>
  if w.downstream then ⟨some (), w, [.emitVehicleUpdate vehicleData]⟩ else ⟨some (), w, []⟩

def emitVehicleEntries (entries : List Entry) (appended : List NewEntry) : M Unit := fun w =>
  if w.downstream then ⟨some (), w, [.emitVehicleEntries entries appended]⟩ else ⟨some (), w, []⟩

/-- Throws when the downstream server is not initialised. -/
def getDownstreamSocket : M Unit := fun w =>
  if w.downstream then ⟨some (), w, []⟩ else ⟨none, w, []⟩

/-! ## Entry reconciliation (`src/processor/entriesCleanup.js`) -/

/-- The grouping loop body: push `entry` onto the array of its plate, creating the
array (a new key, enumerated last) when the plate has none. -/
def groupPush (grouped : List (String × List Entry)) (entry : Entry) :
    List (String × List Entry) :=
  match grouped with
  | [] => [(entry.plate_number, [entry])]
  | (plate, es) :: rest =>
    if plate = entry.plate_number then (plate, es ++ [entry]) :: rest
    else (plate, es) :: groupPush rest entry

/-- The object `grouped`, its keys in the order `for (const plate in grouped)` visits
them (insertion order: plate numbers are not array-index strings). -/
def groupByPlate (rawEntries : List Entry) : List (String × List Entry) :=
  rawEntries.foldl groupPush []

/-- The array `grouped[plate].slice().sort(...)`: a stable sort, ascending by in_time. -/
def sortByInTime (es : List Entry) : List Entry :=
  List.insertionSort (fun a b : Entry => a.in_time ≤ b.in_time) es

/-- Rule 1: `prev && current.in_time - prev.in_time < MS_FIVE_MINUTES`. -/
def rule1 (prev : Option Entry) (current : Entry) : Bool :=
  match prev with
  | none => false
  | some prev => decide (current.in_time - prev.in_time < MS_FIVE_MINUTES)

/-- Rule 2: when `prev && prev.out_time && current.in_time - prev.out_time <
MS_FIVE_MINUTES`, the record `updated` that is written. -/
def rule2 (prev : Option Entry) (current : Entry) : Option Entry :=
  match prev with
  | none => none
  | some prev =>
    match prev.out_time with
    | none => none
    | some prevOut =>
      if current.in_time - prevOut < MS_FIVE_MINUTES then
        match current.out_time with
        | some out => some { prev with out_time := some out }
        | none =>
          if current.isInside = false then some { prev with out_time := none, isInside := false }
          else some prev
      else none

/-- Rule 3: `current.out_time && current.out_time - current.in_time < MS_FIVE_MINUTES`. -/
def rule3 (current : Entry) : Bool :=
  match current.out_time with
  | none => false
  | some out => decide (out - current.in_time < MS_FIVE_MINUTES)

/-- The scan `for (let i = 0; i < entries.length; i++)` over one group.  The local
array is held as `kept` (the elements before index `i`, last first, so `entries[i - 1]`
is its head) and the elements from index `i` on; `splice(i, 1); i--; continue` leaves
`kept` as it is.  The value is the local array when the loop ends. -/
def scanLoop (env : Env) : List Entry → List Entry → M (List Entry)
  | kept, [] => pure kept.reverse
  | kept, current :: rest =>
    if rule1 kept.head? current then do
      let _deleted ← deleteEntry env current.id
      scanLoop env kept rest
    else
      match rule2 kept.head? current with
      | some updated => do
        let _updated ← updateEntry env updated
        let _deleted ← deleteEntry env current.id
        scanLoop env kept rest
      | none =>
        if rule3 current then do
          let _deleted ← deleteEntry env current.id
          scanLoop env kept rest
        else scanLoop env (current :: kept) rest

/-- The loop `for (const plate in grouped)`. -/
def cleanupGroups (env : Env) : List (String × List Entry) → M Unit
  | [] => pure ()
  | (_, es) :: groups => do
    let _entries ← scanLoop env [] (sortByInTime es)
    cleanupGroups env groups

def entriesCleanup (env : Env) : M Unit := do
  let rawEntries ← getLastRecentEntries env 100
  cleanupGroups env (groupByPlate rawEntries)

/-! ## Video capture (`captureVehicle`) -/

/-- A call that is only recorded in the log. -/
def logEffect (eff : Effect) : M Unit := fun w => ⟨some (), w, [eff]⟩

/-- The test `activeRecordings.has(plateNumber)`. -/
def hasRecording (plateNumber : String) : M Bool := fun w =>
  ⟨some (decide (plateNumber ∈ w.activeRecordings)), w, []⟩

/-- The call `activeRecordings.set(plateNumber, ...)`. -/
def setRecording (plateNumber : String) : M Unit := fun w =>
  ⟨some (), { w with activeRecordings := w.activeRecordings ++ [plateNumber] }, []⟩

/-- The guards of `captureVehicle` and the spawn of the capture process; the request
itself is recorded in the log.  Creating the video directory and spawning are taken to
succeed. -/
def captureVehicle (env : Env) (plateNumber rtspUrl : String) (checkIn : Bool) : M Unit := do
  logEffect (.captureVehicle plateNumber rtspUrl checkIn)
  if isFirstStart then pure ()
  else do
    let recording ← hasRecording plateNumber
    if recording then pure ()
    else do
      getDownstreamSocket
      let _timestamp ← newDate env
      logEffect (.spawn plateNumber rtspUrl checkIn)
      setRecording plateNumber

/-! ## Geofence entry lifecycle (`src/processor/vehicle.js`) -/

/-- Truthiness of a string-valued field: present and not empty. -/
def truthy (s : Option String) : Bool :=
  match s with
  | none => false
  | some s => s != ""

/-- The test `s.startsWith('0')`. -/
def startsWith0 (s : String) : Bool := s.data.head? == some '0'

def isValidVehicle (vehicle : Option Vehicle) : Bool :=
  match vehicle with
  | none => false
  | some vehicle =>
    truthy vehicle.deviceID &&
    match vehicle.location with
    | none => false
    | some location =>
      truthy location.latitude && truthy location.longitude &&
      location.latitude != some "" && location.longitude != some "" &&
      location.latitude != some "0" && location.longitude != some "0" &&
      !startsWith0 (location.latitude.getD "") && !startsWith0 (location.longitude.getD "") &&
      (sgn_vehicles.map some).contains vehicle.deviceID

def createVehicleUpdate (vehicle : Vehicle) : VehicleUpdate :=
  { deviceID := vehicle.deviceID
    latitude := vehicle.location.bind (·.latitude)
    longitude := vehicle.location.bind (·.longitude)
    speed := vehicle.location.bind (·.speed)
    direct := vehicle.location.bind (·.direct) }

/-- The pair `{ isInside, distance }`. -/
def calculateVehiclePosition (env : Env) (vehicle : Vehicle) (station : Station) :
    Bool × Option ℚ :=
  let distance := env.getDistanceMeters (vehicle.location.bind (·.latitude))
    (vehicle.location.bind (·.longitude)) station.latitude station.longitude
  (match distance with
    | some d => decide (d ≤ STATION_RADIUS_METERS)
    | none => false,
   distance)

def findVehicleEntry (entries : List Entry) (deviceID : Option String) (stationCode : String) :
    Option Entry :=
  entries.find? fun entry => some entry.plate_number == deviceID && entry.station == stationCode

/-- The function `checkIn`; its `catch` logs and rethrows. -/
def checkIn (env : Env) (stationCode : String) (vehicle : Vehicle) : M Unit := do
  let entries ← getLastRecentEntries env 100
  let existingEntry := entries.find? fun e =>
    some e.plate_number == vehicle.deviceID && e.station == stationCode && e.isInside
  match existingEntry with
  | some _ => pure ()
  | none =>
    let in_time ← newDate env
    let newEntry : NewEntry :=
      { plate_number := vehicle.deviceID.getD "", station := stationCode,
        in_time := in_time, out_time := none, isInside := true }
    let _inserted ← insertEntry env newEntry
    emitVehicleEntries entries [newEntry]
    captureVehicle env (vehicle.deviceID.getD "") env.rtsp_cam_in true

/-- The assignments `entry.out_time = ...; entry.isInside = false` act on the object
that `find` returned, which stays in the array: the first element satisfying `p`. -/
def modifyFirst (p : Entry → Bool) (f : Entry → Entry) : List Entry → List Entry
  | [] => []
  | e :: es => if p e then f e :: es else e :: modifyFirst p f es

/-- The function `checkOut`; its `catch` logs and rethrows. -/
def checkOut (env : Env) (stationCode : String) (vehicle : Vehicle) : M Unit := do
  let entries ← getLastRecentEntries env 100
  let found := fun e : Entry =>
    !(some e.plate_number != vehicle.deviceID || e.station != stationCode)
  match entries.find? found with
  | none => pure ()
  | some entry =>
    let out_time ← newDate env
    let closed := fun e : Entry => { e with out_time := some out_time, isInside := false }
    let _updated ← updateEntry env (closed entry)
    emitVehicleEntries (modifyFirst found closed entries) []
    captureVehicle env (vehicle.deviceID.getD "") env.rtsp_cam_out false

/-- The test `distance > 60` of `processVehicleAtStation`. -/
def beyondExit (distance : Option ℚ) : Bool :=
  match distance with
  | some d => decide (d > 60)
  | none => false

/-- The test `currentEntry && currentEntry.isInside`. -/
def entryIsInside (currentEntry : Option Entry) : Bool :=
  match currentEntry with
  | some e => e.isInside
  | none => false

/-- The test `!LAST_CLEANUP_TIME || now - LAST_CLEANUP_TIME > CONFIG.CLEANUP_INTERVAL_MS`. -/
def cleanupDue (last : Option Int) (now : Int) : Bool :=
  match last with
  | none => true
  | some last => decide (now - last > CLEANUP_INTERVAL_MS)

def processVehicleAtStation (env : Env) (vehicle : Vehicle) (stationObj : Station)
    (entries : List Entry) : M Unit := do
  let stationCode := stationObj.code
  let position := calculateVehiclePosition env vehicle stationObj
  let currentEntry := findVehicleEntry entries vehicle.deviceID stationCode
  let _done ← (if position.1 && !entryIsInside currentEntry then checkIn env stationCode vehicle
    else if beyondExit position.2 && entryIsInside currentEntry then
      checkOut env stationCode vehicle
    else pure ())
  let now ← newDate env
  let last ← readLastCleanup
  if cleanupDue last now then do
    let t ← newDate env
    setLastCleanup t
    entriesCleanup env
  else pure ()

/-- The loop `for (const stationObj of sgn_stations)`. -/
def forStations (env : Env) (vehicle : Vehicle) (entries : List Entry) : List Station → M Unit
  | [] => pure ()
  | stationObj :: rest => do
    processVehicleAtStation env vehicle stationObj entries
    forStations env vehicle entries rest

def checkVehicle (env : Env) (vehicle : Option Vehicle) : M Unit :=
  if !isValidVehicle vehicle then pure ()
  else
    match vehicle with
    | none => pure ()
    | some v => do
      emitVehicleUpdate (createVehicleUpdate v)
      let entries ← getLastRecentEntries env 100
      forStations env v entries sgn_stations

/-- Samples handled one after another, each to completion before the next; a rejected
promise of one message does not stop the handling of the next. -/
def checkVehicles (env : Env) : List (Option Vehicle) → M Unit
  | [] => pure ()
  | v :: vs => fun w =>
    let r := checkVehicle env v w
    let r2 := checkVehicles env vs r.world
    ⟨r2.value, r2.world, r.log ++ r2.log⟩

/-! ## Frame demuxer (the `stdout` data handler of `captureVehicle`) -/

/-- The start-of-image marker `Buffer.from([0xff, 0xd8])`. -/
def SOI : List Nat := [0xff, 0xd8]

/-- The end-of-image marker `Buffer.from([0xff, 0xd9])`. -/
def EOI : List Nat := [0xff, 0xd9]

/-- Whether `value` occurs at the head of `l`. -/
def occursAtHead (value l : List Nat) : Bool := decide (l.take value.length = value)

/-- The search of `indexOf` through the bytes from position `i` on: the first position
at which `value` occurs, or `-1`. -/
def searchFrom (value : List Nat) : List Nat → Nat → Int
  | [], i => if value = [] then (i : Int) else -1
  | b :: bs, i => if occursAtHead value (b :: bs) then (i : Int) else searchFrom value bs (i + 1)

/-- The method `buffer.indexOf(value, byteOffset)`; a negative offset counts from the
end of the buffer. -/
def indexOf (buffer value : List Nat) (byteOffset : Int) : Int :=
  let off := if byteOffset < 0 then (buffer.length + byteOffset).toNat else byteOffset.toNat
  searchFrom value (buffer.drop off) off

/-- The method `buffer.subarray(start, end)` for `0 ≤ start`, `0 ≤ end`. -/
def subarray (buffer : List Nat) (start stop : Int) : List Nat :=
  (buffer.drop start.toNat).take (stop.toNat - start.toNat)

/-- The loop `while (start !== -1 && end !== -1)`, with `start` and `end` computed for
the current buffer: the frames emitted and the buffer retained.  Every iteration drops
at least four bytes, so `fuel = buffer.length` iterations are never exhausted
(`drainFrames_fuel`). -/
def drainFrames : Nat → List Nat → List (List Nat) × List Nat
  | 0, buffer => ([], buffer)
  | fuel + 1, buffer =>
    let start := indexOf buffer SOI 0
    let stop := indexOf buffer EOI (start + 2)
    if start ≠ -1 ∧ stop ≠ -1 then
      let jpeg := subarray buffer start (stop + 2)
      let r := drainFrames fuel (buffer.drop (stop + 2).toNat)
      (jpeg :: r.1, r.2)
    else ([], buffer)

/-- The data handler: `buffer = Buffer.concat([buffer, chunk])`, then the loop.  The
value is the list of frames emitted to the sockets and the new `buffer`. -/
def onData (buffer chunk : List Nat) : List (List Nat) × List Nat :=
  drainFrames (buffer ++ chunk).length (buffer ++ chunk)

/-- The data handler run on the chunks of a stream, in order. -/
def feed (buffer : List Nat) : List (List Nat) → List (List Nat) × List Nat
  | [] => ([], buffer)
  | chunk :: chunks =>
    let r := onData buffer chunk
    let r2 := feed r.2 chunks
    (r.1 ++ r2.1, r2.2)

/-- One iteration of the demuxer loop: the frame cut out and the buffer left, when both
markers are found. -/
def nextFrame (buffer : List Nat) : Option (List Nat × List Nat) :=
  if indexOf buffer SOI 0 ≠ -1 ∧ indexOf buffer EOI (indexOf buffer SOI 0 + 2) ≠ -1 then
    some (subarray buffer (indexOf buffer SOI 0) (indexOf buffer EOI (indexOf buffer SOI 0 + 2) + 2),
      buffer.drop (indexOf buffer EOI (indexOf buffer SOI 0 + 2) + 2).toNat)
  else none

/-- The demuxer loop run to its end on `buffer`. -/
def drain (buffer : List Nat) : List (List Nat) × List Nat := drainFrames buffer.length buffer

/-! ## Upstream reauthentication (`reAuthenticate` of `src/ws/upstream/index.js`) -/

/-- The field `status` of a response body: absent, a string or a number. -/
inductive StatusValue where
  | absent
  | str (s : String)
  | num (n : Int)
deriving DecidableEq, Repr

/-- The object `authData`, read from `response.data.data`; a field that is absent is
`none`. -/
structure AuthData where
  token : Option String
  pid : Option String
deriving DecidableEq, Repr

/-- The body `response.data` of a provider response; `data` is `none` when the body
has no `data` object. -/
structure AuthResponse where
  status : StatusValue
  msg : Option String
  data : Option AuthData
deriving DecidableEq, Repr

/-- What `reAuthenticate` does to the outside: a credential-exchange request
(`axios.request`), a call of the helper `delay` of `ultils/index.js` (not among the
sources; recorded with its argument in milliseconds and taken to resolve), and the
write of the credentials file. -/
inductive AuthEffect where
  | request
  | delay (ms : Nat)
  | saveCredentialsToFile (authData : AuthData)
deriving DecidableEq, Repr

/-- A run of `reAuthenticate`: `value` is `none` when it threw, `some none` when it
returned `undefined`, and `some (some authData)` when it returned credentials. -/
structure AuthRun where
  value : Option (Option AuthData)
  log : List AuthEffect
deriving DecidableEq, Repr

/-- The test `response.data.status == '10082'` (loose equality: the string `'10082'`
or the number 10082). -/
def isThrottle (status : StatusValue) : Bool :=
  match status with
  | .absent => false
  | .str s => s == "10082"
  | .num n => n == 10082

/-- The function `reAuthenticate`.  `provider n` is the response to the request
numbered `n` of this attempt, `none` when the request is rejected; the `catch` logs
and rethrows.  Reading `token` of a missing `data` object throws. -/
def reAuthenticate (provider : Nat → Option AuthResponse) : AuthRun :=
  match provider 0 with
  | none => ⟨none, [.request]⟩
  | some first =>
    let retry := isThrottle first.status
    let log : List AuthEffect :=
      if retry then [.request, .delay (1000 * 60 * 5), .request] else [.request]
    match (if retry then provider 1 else some first) with
    | none => ⟨none, log⟩
    | some response =>
      if response.msg == some "Success" then
        match response.data with
        | none => ⟨none, log⟩
        | some authData => ⟨some (some authData), log ++ [.saveCredentialsToFile authData]⟩
      else ⟨some none, log⟩

/-! ## Concrete inputs -/

/-- A throttling response. -/
def throttleResponse : AuthResponse := ⟨.num 10082, some "Too many requests", none⟩

/-- A successful response. -/
def successResponse : AuthResponse := ⟨.num 0, some "Success", some ⟨some "tok", some "42"⟩⟩

/-- A response with msg 'Success' and no data object. -/
def successWithoutData : AuthResponse := ⟨.num 0, some "Success", none⟩

/-- A provider that throttles the first request and accepts the second. -/
def throttleThenSuccess (n : Nat) : Option AuthResponse :=
  if n = 0 then some throttleResponse else some successResponse


/-- An environment in which no store call fails, the clock reads `1000000 + n` at its
`n`-th reading, and every distance is `d`. -/
def envAt (d : ℚ) : Env :=
  ⟨fun _ => false, fun n => 1000000 + n, fun _ _ _ _ => some d, "rtsp://in", "rtsp://out"⟩

/-- The environment `envAt 50`. -/
def envOk : Env := envAt 50

/-- A world holding `rows`, before any call, with the downstream server initialised and
no reconciliation pass run yet. -/
def worldOf (rows : List Entry) : World := ⟨rows, rows.length + 1, 0, 0, none, true, []⟩

def mergePrev : Entry := ⟨1, "SGN-32001", "SGN", 0, some 600000, false⟩

def mergeCurOpen : Entry := ⟨2, "SGN-32001", "SGN", 720000, none, true⟩

def mergeCurClosed : Entry := ⟨2, "SGN-32001", "SGN", 720000, none, false⟩

/-- The environment `envOk` with the second store call failing. -/
def envFailSecond : Env := { envOk with fails := fun n => decide (n = 1) }

/-- Two vehicles, each with an entry and a duplicate of it one minute later. -/
def twoVehicles : List Entry :=
  [⟨1, "SGN-32001", "SGN", 0, none, true⟩, ⟨2, "SGN-32001", "SGN", 60000, none, true⟩,
   ⟨3, "SGN-32002", "SGN", 0, none, true⟩, ⟨4, "SGN-32002", "SGN", 60000, none, true⟩]

/-- An accepted sample of the monitored vehicle SGN-32001. -/
def sampleVehicle : Vehicle :=
  ⟨some "SGN-32001", some ⟨some "10.8204", some "106.6731", some "12", some "90"⟩⟩

/-- The store calls that write: insert, update and delete. -/
def Effect.isStoreWrite : Effect → Bool
  | .insertEntry _ => true
  | .updateEntry _ => true
  | .deleteEntry _ => true
  | _ => false

/-- An open entry of SGN-32001 at SGN, and two sessions of SGN-32002 that the
reconciliation pass merges. -/
def openAndMergeable : List Entry :=
  [⟨1, "SGN-32002", "SGN", 0, some 600000, false⟩,
   ⟨2, "SGN-32002", "SGN", 720000, some 1200000, false⟩,
   ⟨3, "SGN-32001", "SGN", 0, none, true⟩]

/-- The environment `envAt d` with a clock that stands at 1000000. -/
def envSteady (d : ℚ) : Env := { envAt d with clock := fun _ => 1000000 }

/-- The world `worldOf rows` after a reconciliation pass at time 999000. -/
def worldRecent (rows : List Entry) : World :=
  { worldOf rows with LAST_CLEANUP_TIME := some 999000 }

/-- An open entry of SGN-32001 at SGN (id 1) followed by one hundred closed entries of
SGN-32002 (ids 2 to 101), one hour apart, each half an hour long. -/
def openBeyondWindow : List Entry :=
  ⟨1, "SGN-32001", "SGN", 0, none, true⟩ ::
    (List.range 100).map fun i =>
      ⟨i + 2, "SGN-32002", "SGN", (i : Int) * 3600000, some ((i : Int) * 3600000 + 1800000),
        false⟩

/-- A sample of a monitored vehicle whose latitude is the provider's no-fix value. -/
def noFixVehicle : Vehicle :=
  ⟨some "SGN-32001", some ⟨some "0.000000", some "106.6731", none, none⟩⟩

/-- A second session of SGN-32001, two minutes after `mergePrev` ended. -/
def mergeCurDone : Entry := ⟨2, "SGN-32001", "SGN", 720000, some 1200000, false⟩

/-- A one-minute stay. -/
def shortStay : Entry := ⟨1, "SGN-32003", "SGN", 0, some 60000, false⟩

/-- A third session of SGN-32001, two minutes after `mergeCurDone` ended. -/
def mergeThird : Entry := ⟨3, "SGN-32001", "SGN", 1320000, some 1800000, false⟩

/-- An empty store before the downstream server is initialised. -/
def worldNoDownstream : World := { worldOf [] with downstream := false }

/-! ## Properties stated by the specification -/

/-- A coordinate the validation is said to reject: missing, empty, `'0'`, or a string
beginning with `'0'`. -/
def badCoordinate (c : Option String) : Prop :=
  c = none ∨ c = some "" ∨ c = some "0" ∨ ∃ s, c = some s ∧ s.data.head? = some '0'

/-- A sample the validation is said to reject: its deviceID is not in the monitored
vehicle list, or its latitude or longitude is a bad coordinate. -/
def rejectedSample (vehicle : Option Vehicle) : Prop :=
  (∀ d, vehicle.bind (·.deviceID) = some d → d ∉ sgn_vehicles) ∨
  badCoordinate ((vehicle.bind (·.location)).bind (·.latitude)) ∨
  badCoordinate ((vehicle.bind (·.location)).bind (·.longitude))

/-- The marker `value` occurs in `buffer` at offset `i`. -/
def occursAt (value buffer : List Nat) (i : Nat) : Prop :=
  (buffer.drop i).take value.length = value

/-- A complete frame: it begins with FF D8, ends with FF D9, and has no FF D9 pair
starting at an offset >= 2 before its final two bytes. -/
def IsFrame (frame : List Nat) : Prop :=
  occursAt SOI frame 0 ∧ 2 ≤ frame.length ∧ occursAt EOI frame (frame.length - 2) ∧
    ∀ k, 2 ≤ k → k < frame.length - 2 → ¬ occursAt EOI frame k

/-- A partial frame: it begins with FF D8 and has no FF D9 pair at an offset >= 2. -/
def IsPartialFrame (tail : List Nat) : Prop :=
  occursAt SOI tail 0 ∧ ∀ k, 2 ≤ k → ¬ occursAt EOI tail k

/-- The response carries the throttle status 10082, as a number or as the string
`'10082'`. -/
def carriesThrottle (status : StatusValue) : Prop :=
  status = .num 10082 ∨ status = .str "10082"

/-- The result `value` of a reauthentication is decided by the response `last`: when
msg is 'Success' it is the token and pid of the data object (a throw when the response
has no data object), otherwise it is `undefined`, no credentials. -/
def decidedBy (last : AuthResponse) (value : Option (Option AuthData)) : Prop :=
  (last.msg = some "Success" →
    (∀ authData, last.data = some authData → value = some (some authData)) ∧
    (last.data = none → value = none)) ∧
  (last.msg ≠ some "Success" → value = some none)

/-! ## Predicates used in the statements and proofs -/

/-- Running `m` keeps the property `Q` of the table and of the next id, whether `m`
returns or throws. -/
def Keeps {α : Type} (Q : List Entry → Nat → Prop) (m : M α) : Prop :=
  ∀ w, Q w.rows w.nextId → Q (m w).world.rows (m w).world.nextId

/-- Every row of `rows` descends from a row of `rows0` with the same id, plate, station
and in_time, and is open only if that row was. -/
def Dom (rows0 rows : List Entry) : Prop :=
  ∀ r ∈ rows, ∃ r0 ∈ rows0, r0.id = r.id ∧ r0.plate_number = r.plate_number ∧
    r0.station = r.station ∧ r0.in_time = r.in_time ∧ (r.isInside = true → r0.isInside = true)

/-- The well-formedness of the table: ids are unique and below the next id. -/
def UniqueIds (rows : List Entry) (nextId : Nat) : Prop :=
  (rows.map (·.id)).Nodup ∧ ∀ r ∈ rows, r.id < nextId

/-- The invariant the reconciliation pass keeps relative to the table `rows0` it
started from. -/
def CleanupInv (rows0 : List Entry) (rows : List Entry) (nextId : Nat) : Prop :=
  UniqueIds rows nextId ∧ Dom rows0 rows

/-- No store call fails. -/
def NoFail (env : Env) : Prop := ∀ n, env.fails n = false

/-- The in_time of `b` is at least five minutes after the in_time of `a`. -/
def Gap (a b : Entry) : Prop := MS_FIVE_MINUTES ≤ b.in_time - a.in_time

/-- The run `r` issued a delete of the id of `e` and left no row with that id. -/
def Deleted {α : Type} (r : Res α) (e : Entry) : Prop :=
  Effect.deleteEntry e.id ∈ r.log ∧ ∀ x ∈ r.world.rows, x.id ≠ e.id

/-- Every id of `rows` is an id of `rows0`. -/
def IdsWithin (rows0 rows : List Entry) : Prop := ∀ x ∈ rows, ∃ y ∈ rows0, y.id = x.id

/-- What the pass establishes for one group: the local array `K` left by its scan has
in_times at least five minutes apart, holds no short stay, and every entry of the group
is in `K` or was deleted. -/
def GroupDone {α : Type} (r : Res α) (es : List Entry) : Prop :=
  ∃ K, List.Pairwise Gap K ∧ (∀ e ∈ K, rule3 e = false) ∧ ∀ e ∈ es, e ∈ K ∨ Deleted r e

/-- The run of `m` logs store calls only, stops at the first store call that fails, and
throws only there. -/
def StopsAtFailure {α : Type} (env : Env) (m : M α) : Prop :=
  ∀ w, (m w).world.calls = w.calls + (m w).log.length ∧
    (∀ n, w.calls ≤ n → n < (m w).world.calls → env.fails n = true →
      (m w).world.calls = n + 1 ∧ (m w).value = none) ∧
    ((m w).value = none →
      w.calls < (m w).world.calls ∧ env.fails ((m w).world.calls - 1) = true)

/-- Running `m` issues no store write and leaves the table, the next id and
`LAST_CLEANUP_TIME` as they are. -/
def Quiet {α : Type} (m : M α) : Prop :=
  ∀ w, (m w).log.filter Effect.isStoreWrite = [] ∧ (m w).world.rows = w.rows ∧
    (m w).world.nextId = w.nextId ∧ (m w).world.LAST_CLEANUP_TIME = w.LAST_CLEANUP_TIME

/-- What a run wrote and left: its store writes, the table, the next id and
`LAST_CLEANUP_TIME`. -/
def summary {α : Type} (r : Res α) : List Effect × List Entry × Nat × Option Int :=
  (r.log.filter Effect.isStoreWrite, r.world.rows, r.world.nextId, r.world.LAST_CLEANUP_TIME)

/-- At most one Entry per (plate_number, station) has isInside = true. -/
def AtMostOneOpen (rows : List Entry) : Prop :=
  ∀ plate station : String,
    (rows.filter fun e =>
      decide (e.plate_number = plate ∧ e.station = station) && e.isInside).length ≤ 1

/-- Two open rows of one (plate_number, station) have the same id. -/
def OneOpen (rows : List Entry) : Prop :=
  ∀ a ∈ rows, ∀ b ∈ rows, a.isInside = true → b.isInside = true →
    a.plate_number = b.plate_number → a.station = b.station → a.id = b.id

/-- The table is well formed and has at most one open entry per (plate, station). -/
def StoreInv (rows : List Entry) (nextId : Nat) : Prop := UniqueIds rows nextId ∧ OneOpen rows

/-- The Entry time invariant: if out_time is set, out_time >= in_time. -/
def GoodTimes (e : Entry) : Prop := ∀ o, e.out_time = some o → e.in_time ≤ o

/-- An effect that, if it is an update, writes a record satisfying the time invariant. -/
def UpdateKeepsTimes (eff : Effect) : Prop :=
  match eff with
  | .updateEntry u => GoodTimes u
  | _ => True

/-- Every effect logged by `m` satisfies `P`. -/
def LogAll {α : Type} (P : Effect → Prop) (m : M α) : Prop := ∀ w, ∀ eff ∈ (m w).log, P eff

/-! ## Theorems -/

/-! ### Sequencing -/

theorem bind_none {α β : Type} (m : M α) (f : α → M β) (w : World) (h : (m w).value = none) :
    (m >>= f) w = ⟨none, (m w).world, (m w).log⟩ := by
  show M.bind m f w = _
  unfold M.bind
  cases hm : m w with
  | mk v w1 l1 =>
    rw [hm] at h
    simp only at h
    subst h
    rfl

theorem bind_some {α β : Type} (m : M α) (f : α → M β) (w : World) (a : α)
    (h : (m w).value = some a) :
    (m >>= f) w =
      ⟨(f a (m w).world).value, (f a (m w).world).world, (m w).log ++ (f a (m w).world).log⟩ := by
  show M.bind m f w = _
  unfold M.bind
  cases hm : m w with
  | mk v w1 l1 =>
    rw [hm] at h
    simp only at h
    subst h
    rfl

theorem pure_run {α : Type} (a : α) (w : World) : (pure a : M α) w = ⟨some a, w, []⟩ := rfl

theorem keeps_pure {α : Type} (Q : List Entry → Nat → Prop) (a : α) :
    Keeps Q (pure a : M α) := fun _ h => h

theorem keeps_bind {α β : Type} {Q : List Entry → Nat → Prop} {m : M α} {f : α → M β}
    (hm : Keeps Q m) (hf : ∀ a, Keeps Q (f a)) : Keeps Q (m >>= f) := by
  intro w hw
  cases hv : (m w).value with
  | none => rw [bind_none m f w hv]; exact hm w hw
  | some a => rw [bind_some m f w a hv]; exact hf a _ (hm w hw)

theorem keeps_storeCall {α : Type} {Q : List Entry → Nat → Prop} (env : Env) (eff : Effect)
    (f : World → α × World)
    (hf : ∀ w, Q w.rows w.nextId → Q (f w).2.rows (f w).2.nextId) :
    Keeps Q (storeCall env eff f) := by
  intro w hw
  unfold GpsGate.storeCall
  by_cases hfail : env.fails w.calls = true
  · simpa [hfail] using hw
  · simp only [hfail]
    exact hf _ hw

theorem keeps_getLastRecentEntries (Q : List Entry → Nat → Prop) (env : Env) (limit : Nat) :
    Keeps Q (getLastRecentEntries env limit) :=
  keeps_storeCall env _ _ fun _ h => h

theorem keeps_newDate (Q : List Entry → Nat → Prop) (env : Env) : Keeps Q (newDate env) :=
  fun _ h => h

theorem keeps_emitVehicleEntries (Q : List Entry → Nat → Prop) (es : List Entry)
    (ns : List NewEntry) : Keeps Q (emitVehicleEntries es ns) := by
  intro w h
  unfold GpsGate.emitVehicleEntries
  split <;> exact h

theorem keeps_logEffect (Q : List Entry → Nat → Prop) (eff : Effect) :
    Keeps Q (logEffect eff) := fun _ h => h

theorem keeps_captureVehicle (Q : List Entry → Nat → Prop) (env : Env) (plate url : String)
    (dir : Bool) : Keeps Q (captureVehicle env plate url dir) := by
  unfold GpsGate.captureVehicle
  refine keeps_bind (keeps_logEffect Q _) fun _ => ?_
  simp only [isFirstStart, Bool.false_eq_true, if_false]
  refine keeps_bind (fun _ h => h) fun recording => ?_
  split
  · exact keeps_pure Q _
  · refine keeps_bind ?_ fun _ => keeps_bind (keeps_newDate Q env) fun _ =>
      keeps_bind (keeps_logEffect Q _) fun _ => fun _ h => h
    intro w h
    unfold getDownstreamSocket
    split <;> exact h

/-! ### The table under updates and deletes -/

theorem dom_refl (rows : List Entry) : Dom rows rows :=
  fun r hr => ⟨r, hr, rfl, rfl, rfl, rfl, id⟩

theorem dom_filter {rows0 rows : List Entry} (p : Entry → Bool) (h : Dom rows0 rows) :
    Dom rows0 (rows.filter p) :=
  fun r hr => h r (List.mem_filter.mp hr).1

theorem dom_update {rows0 rows : List Entry} (u p : Entry) (h : Dom rows0 rows)
    (hp : p ∈ rows0) (hid : p.id = u.id) (hpl : p.plate_number = u.plate_number)
    (hst : p.station = u.station) (hin : p.in_time = u.in_time)
    (hop : u.isInside = true → p.isInside = true) :
    Dom rows0 (rows.map fun r => if r.id = u.id then u else r) := by
  intro r hr
  obtain ⟨x, hx, rfl⟩ := List.mem_map.mp hr
  by_cases hxu : x.id = u.id
  · simp only [hxu, if_true]
    exact ⟨p, hp, hid, hpl, hst, hin, hop⟩
  · simp only [hxu, if_false]
    exact h x hx

theorem map_id_update (rows : List Entry) (u : Entry) :
    (rows.map fun r => if r.id = u.id then u else r).map (·.id) = rows.map (·.id) := by
  induction rows with
  | nil => rfl
  | cons x xs ih =>
    simp only [List.map_cons, ih, List.cons.injEq, and_true]
    by_cases hxu : x.id = u.id
    · simp [hxu]
    · simp [hxu]

theorem uniqueIds_filter {rows : List Entry} {n : Nat} (p : Entry → Bool)
    (h : UniqueIds rows n) : UniqueIds (rows.filter p) n :=
  ⟨(List.filter_sublist rows).map (·.id) |>.nodup h.1,
    fun r hr => h.2 r (List.mem_filter.mp hr).1⟩

theorem uniqueIds_update {rows : List Entry} {n : Nat} (u : Entry) (h : UniqueIds rows n) :
    UniqueIds (rows.map fun r => if r.id = u.id then u else r) n := by
  refine ⟨by rw [map_id_update]; exact h.1, ?_⟩
  intro r hr
  obtain ⟨x, hx, rfl⟩ := List.mem_map.mp hr
  by_cases hxu : x.id = u.id
  · simp only [hxu, if_true]; rw [← hxu]; exact h.2 x hx
  · simp only [hxu, if_false]; exact h.2 x hx

theorem uniqueIds_eq_of_id {rows : List Entry} {n : Nat} (h : UniqueIds rows n) {a b : Entry}
    (ha : a ∈ rows) (hb : b ∈ rows) (hab : a.id = b.id) : a = b :=
  List.inj_on_of_nodup_map h.1 ha hb hab

theorem keeps_deleteEntry (rows0 : List Entry) (env : Env) (id : Nat) :
    Keeps (CleanupInv rows0) (deleteEntry env id) :=
  keeps_storeCall env _ _ fun _ h => ⟨uniqueIds_filter _ h.1, dom_filter _ h.2⟩

theorem rule2_spec {prev : Option Entry} {current updated : Entry}
    (h : rule2 prev current = some updated) :
    ∃ p, prev = some p ∧ p.id = updated.id ∧ p.plate_number = updated.plate_number ∧
      p.station = updated.station ∧ p.in_time = updated.in_time ∧
      (updated.isInside = true → p.isInside = true) := by
  cases prev with
  | none => simp [rule2] at h
  | some p =>
    refine ⟨p, rfl, ?_⟩
    simp only [rule2] at h
    split at h
    · exact absurd h (by simp)
    · split at h
      · split at h
        · simp only [Option.some.injEq] at h; subst h; simp
        · split at h
          · simp only [Option.some.injEq] at h; subst h; simp
          · simp only [Option.some.injEq] at h; subst h; simp
      · exact absurd h (by simp)

theorem keeps_updateEntry (rows0 : List Entry) (env : Env) (u p : Entry) (hp : p ∈ rows0)
    (hid : p.id = u.id) (hpl : p.plate_number = u.plate_number) (hst : p.station = u.station)
    (hin : p.in_time = u.in_time) (hop : u.isInside = true → p.isInside = true) :
    Keeps (CleanupInv rows0) (updateEntry env u) :=
  keeps_storeCall env _ _ fun _ h => ⟨uniqueIds_update u h.1, dom_update u p h.2 hp hid hpl hst hin hop⟩

theorem keeps_scanLoop (rows0 : List Entry) (env : Env) :
    ∀ (rest kept : List Entry), (∀ e ∈ kept, e ∈ rows0) → (∀ e ∈ rest, e ∈ rows0) →
      Keeps (CleanupInv rows0) (scanLoop env kept rest) := by
  intro rest
  induction rest with
  | nil => intro kept _ _; exact keeps_pure _ _
  | cons current rest ih =>
    intro kept hk hr
    have hr' : ∀ e ∈ rest, e ∈ rows0 := fun e he => hr e (List.mem_cons_of_mem _ he)
    unfold GpsGate.scanLoop
    split
    · exact keeps_bind (keeps_deleteEntry rows0 env _) fun _ => ih kept hk hr'
    · split
      · rename_i updated hu
        obtain ⟨p, hp, h1, h2, h3, h4, h5⟩ := rule2_spec hu
        have hpk : p ∈ kept := List.mem_of_mem_head? hp
        exact keeps_bind (keeps_updateEntry rows0 env updated p (hk p hpk) h1 h2 h3 h4 h5)
          fun _ => keeps_bind (keeps_deleteEntry rows0 env _) fun _ => ih kept hk hr'
      · split
        · exact keeps_bind (keeps_deleteEntry rows0 env _) fun _ => ih kept hk hr'
        · refine ih (current :: kept) ?_ hr'
          intro e he
          rcases List.mem_cons.mp he with rfl | he
          · exact hr _ (List.mem_cons_self _ _)
          · exact hk e he

/-! ### Grouping by plate -/

theorem groupPush_keys (g : List (String × List Entry)) (e : Entry) :
    (groupPush g e).map Prod.fst =
      if e.plate_number ∈ g.map Prod.fst then g.map Prod.fst
      else g.map Prod.fst ++ [e.plate_number] := by
  induction g with
  | nil => simp [groupPush]
  | cons kv rest ih =>
    obtain ⟨k, es⟩ := kv
    simp only [groupPush]
    by_cases hk : k = e.plate_number
    · simp [hk]
    · have hk' : ¬ e.plate_number = k := fun h => hk h.symm
      simp only [hk, if_false, List.map_cons, ih, List.mem_cons, hk', false_or]
      split <;> simp

theorem groupPush_self (g : List (String × List Entry)) (e : Entry) :
    ∃ es, (e.plate_number, es) ∈ groupPush g e ∧ e ∈ es := by
  induction g with
  | nil => exact ⟨[e], by simp [groupPush], by simp⟩
  | cons kv rest ih =>
    obtain ⟨k, es⟩ := kv
    simp only [groupPush]
    by_cases hk : k = e.plate_number
    · subst hk
      exact ⟨es ++ [e], by simp, by simp⟩
    · obtain ⟨es', h1, h2⟩ := ih
      exact ⟨es', by simp [hk, h1], h2⟩

theorem groupPush_mono (g : List (String × List Entry)) (e : Entry) (k : String)
    (es : List Entry) (h : (k, es) ∈ g) :
    ∃ es', (k, es') ∈ groupPush g e ∧ ∀ x ∈ es, x ∈ es' := by
  induction g with
  | nil => simp at h
  | cons kv rest ih =>
    obtain ⟨k0, es0⟩ := kv
    simp only [groupPush]
    rcases List.mem_cons.mp h with heq | hmem
    · simp only [Prod.mk.injEq] at heq
      obtain ⟨rfl, rfl⟩ := heq
      by_cases hk : k = e.plate_number
      · exact ⟨es ++ [e], by simp [hk], fun x hx => by simp [hx]⟩
      · exact ⟨es, by simp [hk], fun x hx => hx⟩
    · by_cases hk : k0 = e.plate_number
      · exact ⟨es, by simp [hk, hmem], fun x hx => hx⟩
      · obtain ⟨es', h1, h2⟩ := ih hmem
        exact ⟨es', by simp [hk, h1], h2⟩

theorem groupPush_members (g : List (String × List Entry)) (e : Entry) (k : String)
    (es : List Entry) (h : (k, es) ∈ groupPush g e) :
    ∀ x ∈ es, (x = e ∧ k = e.plate_number) ∨ ∃ es0, (k, es0) ∈ g ∧ x ∈ es0 := by
  induction g with
  | nil =>
    simp only [groupPush, List.mem_singleton, Prod.mk.injEq] at h
    obtain ⟨rfl, rfl⟩ := h
    intro x hx
    exact Or.inl ⟨by simpa using hx, rfl⟩
  | cons kv rest ih =>
    obtain ⟨k0, es0⟩ := kv
    simp only [groupPush] at h
    intro x hx
    by_cases hk : k0 = e.plate_number
    · simp only [hk, if_true, List.mem_cons, Prod.mk.injEq] at h
      rcases h with ⟨rfl, rfl⟩ | hmem
      · rcases List.mem_append.mp hx with hx | hx
        · exact Or.inr ⟨es0, by simp [hk], hx⟩
        · exact Or.inl ⟨by simpa using hx, rfl⟩
      · exact Or.inr ⟨es, by simp [hmem], hx⟩
    · simp only [hk, if_false, List.mem_cons, Prod.mk.injEq] at h
      rcases h with ⟨rfl, rfl⟩ | hmem
      · exact Or.inr ⟨es, by simp, hx⟩
      · rcases ih hmem x hx with h1 | ⟨es1, h1, h2⟩
        · exact Or.inl h1
        · exact Or.inr ⟨es1, by simp [h1], h2⟩

theorem foldl_groupPush_keys (l : List Entry) :
    ∀ g : List (String × List Entry), (g.map Prod.fst).Nodup →
      ((l.foldl groupPush g).map Prod.fst).Nodup := by
  induction l with
  | nil => intro g h; exact h
  | cons e l ih =>
    intro g h
    simp only [List.foldl_cons]
    apply ih
    rw [groupPush_keys]
    split
    · exact h
    · rename_i hne
      exact List.nodup_append.mpr ⟨h, List.nodup_singleton _, by
        intro a ha hb
        rw [List.mem_singleton] at hb
        exact hne (hb ▸ ha)⟩

theorem foldl_groupPush_mono (l : List Entry) :
    ∀ (g : List (String × List Entry)) (k : String) (es : List Entry), (k, es) ∈ g →
      ∃ es', (k, es') ∈ l.foldl groupPush g ∧ ∀ x ∈ es, x ∈ es' := by
  induction l with
  | nil => intro g k es h; exact ⟨es, h, fun x hx => hx⟩
  | cons e l ih =>
    intro g k es h
    obtain ⟨es1, h1, h2⟩ := groupPush_mono g e k es h
    obtain ⟨es2, h3, h4⟩ := ih (groupPush g e) k es1 h1
    exact ⟨es2, h3, fun x hx => h4 x (h2 x hx)⟩

theorem foldl_groupPush_cover (l : List Entry) :
    ∀ (g : List (String × List Entry)), ∀ e ∈ l,
      ∃ es, (e.plate_number, es) ∈ l.foldl groupPush g ∧ e ∈ es := by
  induction l with
  | nil => intro g e he; simp at he
  | cons a l ih =>
    intro g e he
    simp only [List.foldl_cons]
    rcases List.mem_cons.mp he with rfl | he
    · obtain ⟨es1, h1, h2⟩ := groupPush_self g e
      obtain ⟨es2, h3, h4⟩ := foldl_groupPush_mono l (groupPush g e) _ es1 h1
      exact ⟨es2, h3, h4 e h2⟩
    · exact ih (groupPush g a) e he

theorem foldl_groupPush_members (l : List Entry) :
    ∀ (g : List (String × List Entry)) (k : String) (es : List Entry),
      (k, es) ∈ l.foldl groupPush g →
      ∀ x ∈ es, (x ∈ l ∧ x.plate_number = k) ∨ ∃ es0, (k, es0) ∈ g ∧ x ∈ es0 := by
  induction l with
  | nil => intro g k es h x hx; exact Or.inr ⟨es, h, hx⟩
  | cons a l ih =>
    intro g k es h x hx
    simp only [List.foldl_cons] at h
    rcases ih (groupPush g a) k es h x hx with ⟨h1, h2⟩ | ⟨es0, h1, h2⟩
    · exact Or.inl ⟨List.mem_cons_of_mem _ h1, h2⟩
    · rcases groupPush_members g a k es0 h1 x h2 with ⟨rfl, rfl⟩ | h3
      · exact Or.inl ⟨List.mem_cons_self _ _, rfl⟩
      · exact Or.inr h3

theorem groupByPlate_cover (raw : List Entry) (e : Entry) (he : e ∈ raw) :
    ∃ es, (e.plate_number, es) ∈ groupByPlate raw ∧ e ∈ es :=
  foldl_groupPush_cover raw [] e he

theorem groupByPlate_members (raw : List Entry) (k : String) (es : List Entry)
    (h : (k, es) ∈ groupByPlate raw) : ∀ x ∈ es, x ∈ raw ∧ x.plate_number = k := by
  intro x hx
  rcases foldl_groupPush_members raw [] k es h x hx with h1 | ⟨es0, h1, _⟩
  · exact h1
  · simp at h1

theorem eq_of_nodup_keys {l : List (String × List Entry)} (h : (l.map Prod.fst).Nodup)
    {k : String} {a b : List Entry} (ha : (k, a) ∈ l) (hb : (k, b) ∈ l) : a = b := by
  induction l with
  | nil => simp at ha
  | cons kv rest ih =>
    simp only [List.map_cons, List.nodup_cons] at h
    rcases List.mem_cons.mp ha with ha | ha <;> rcases List.mem_cons.mp hb with hb | hb
    · rw [← ha] at hb; simp only [Prod.mk.injEq, true_and] at hb; exact hb.symm
    · exact absurd (List.mem_map.mpr ⟨(k, b), hb, by rw [← ha]⟩) h.1
    · exact absurd (List.mem_map.mpr ⟨(k, a), ha, by rw [← hb]⟩) h.1
    · exact ih h.2 ha hb

theorem groupByPlate_unique (raw : List Entry) {k : String} {a b : List Entry}
    (ha : (k, a) ∈ groupByPlate raw) (hb : (k, b) ∈ groupByPlate raw) : a = b :=
  eq_of_nodup_keys (foldl_groupPush_keys raw [] (by simp)) ha hb

theorem mem_recentRows {limit : Nat} {rows : List Entry} {e : Entry}
    (h : e ∈ recentRows limit rows) : e ∈ rows :=
  (List.mem_insertionSort _).mp (List.mem_of_mem_take h)

theorem mem_sortByInTime {es : List Entry} {e : Entry} : e ∈ sortByInTime es ↔ e ∈ es :=
  List.mem_insertionSort _

/-! ### The reconciliation pass keeps the table well formed -/

theorem keeps_cleanupGroups (rows0 : List Entry) (env : Env) :
    ∀ groups : List (String × List Entry),
      (∀ kv ∈ groups, ∀ e ∈ kv.2, e ∈ rows0) →
      Keeps (CleanupInv rows0) (cleanupGroups env groups) := by
  intro groups
  induction groups with
  | nil => intro _; exact keeps_pure _ _
  | cons kv rest ih =>
    intro h
    obtain ⟨k, es⟩ := kv
    unfold GpsGate.cleanupGroups
    refine keeps_bind (keeps_scanLoop rows0 env _ [] (by simp) ?_) fun _ =>
      ih fun kv hkv => h kv (List.mem_cons_of_mem _ hkv)
    intro e he
    exact h (k, es) (List.mem_cons_self _ _) e (mem_sortByInTime.mp he)

theorem storeCall_fail {α : Type} (env : Env) (eff : Effect) (f : World → α × World) (w : World)
    (h : env.fails w.calls = true) :
    storeCall env eff f w = ⟨none, { w with calls := w.calls + 1 }, [eff]⟩ := by
  unfold GpsGate.storeCall
  simp only [h, if_true]

theorem storeCall_ok {α : Type} (env : Env) (eff : Effect) (f : World → α × World) (w : World)
    (h : env.fails w.calls = false) :
    storeCall env eff f w =
      ⟨some (f { w with calls := w.calls + 1 }).1, (f { w with calls := w.calls + 1 }).2,
        [eff]⟩ := by
  unfold GpsGate.storeCall
  simp only [h, Bool.false_eq_true, if_false]

theorem getLastRecentEntries_ok (env : Env) (limit : Nat) (w : World)
    (h : env.fails w.calls = false) :
    getLastRecentEntries env limit w =
      ⟨some (recentRows limit w.rows), { w with calls := w.calls + 1 },
        [.getLastRecentEntries limit]⟩ :=
  storeCall_ok env _ _ w h

theorem getLastRecentEntries_fail (env : Env) (limit : Nat) (w : World)
    (h : env.fails w.calls = true) :
    getLastRecentEntries env limit w =
      ⟨none, { w with calls := w.calls + 1 }, [.getLastRecentEntries limit]⟩ :=
  storeCall_fail env _ _ w h

theorem deleteEntry_ok (env : Env) (id : Nat) (w : World) (h : env.fails w.calls = false) :
    deleteEntry env id w =
      ⟨some true, { w with calls := w.calls + 1,
                           rows := w.rows.filter fun r => decide (r.id ≠ id) },
        [.deleteEntry id]⟩ :=
  storeCall_ok env _ _ w h

theorem updateEntry_ok (env : Env) (u : Entry) (w : World) (h : env.fails w.calls = false) :
    updateEntry env u w =
      ⟨some true, { w with calls := w.calls + 1,
                           rows := w.rows.map fun r => if r.id = u.id then u else r },
        [.updateEntry u]⟩ :=
  storeCall_ok env _ _ w h

theorem insertEntry_ok (env : Env) (e : NewEntry) (w : World) (h : env.fails w.calls = false) :
    insertEntry env e w =
      ⟨some true, { w with calls := w.calls + 1, rows := w.rows ++ [e.withId w.nextId],
                           nextId := w.nextId + 1 },
        [.insertEntry e]⟩ :=
  storeCall_ok env _ _ w h

/-- The reconciliation pass, whether it completes or is aborted by a failing store call,
leaves a table with unique ids whose rows descend from the rows it started from. -/
theorem entriesCleanup_inv (env : Env) (w : World) (h : UniqueIds w.rows w.nextId) :
    UniqueIds (entriesCleanup env w).world.rows (entriesCleanup env w).world.nextId ∧
      Dom w.rows (entriesCleanup env w).world.rows := by
  unfold GpsGate.entriesCleanup
  cases hf : env.fails w.calls with
  | true =>
    have hrun := getLastRecentEntries_fail env 100 w hf
    rw [bind_none _ _ w (by rw [hrun]), hrun]
    exact ⟨h, dom_refl _⟩
  | false =>
    have hrun := getLastRecentEntries_ok env 100 w hf
    rw [bind_some _ _ w (recentRows 100 w.rows) (by rw [hrun]), hrun]
    have hk := keeps_cleanupGroups w.rows env (groupByPlate (recentRows 100 w.rows)) (by
      intro kv hkv e he
      exact mem_recentRows (groupByPlate_members _ kv.1 kv.2 hkv e he).1)
    exact hk { w with calls := w.calls + 1 } ⟨h, dom_refl _⟩

/-! ### The reconciliation pass when no store call fails -/

theorem idsWithin_trans {a b c : List Entry} (h1 : IdsWithin a b) (h2 : IdsWithin b c) :
    IdsWithin a c := by
  intro x hx
  obtain ⟨y, hy, hyx⟩ := h2 x hx
  obtain ⟨z, hz, hzy⟩ := h1 y hy
  exact ⟨z, hz, hzy.trans hyx⟩

theorem idsWithin_filter (rows : List Entry) (p : Entry → Bool) :
    IdsWithin rows (rows.filter p) :=
  fun x hx => ⟨x, (List.mem_filter.mp hx).1, rfl⟩

theorem idsWithin_update (rows : List Entry) (u : Entry) :
    IdsWithin rows (rows.map fun r => if r.id = u.id then u else r) := by
  intro x hx
  obtain ⟨y, hy, rfl⟩ := List.mem_map.mp hx
  refine ⟨y, hy, ?_⟩
  by_cases h : y.id = u.id
  · simp [h]
  · simp [h]

theorem delete_then {α : Type} (env : Env) (hok : NoFail env) (id : Nat) (f : Bool → M α)
    (w : World) :
    (deleteEntry env id >>= f) w =
      ⟨(f true { w with calls := w.calls + 1,
                        rows := w.rows.filter fun r => decide (r.id ≠ id) }).value,
       (f true { w with calls := w.calls + 1,
                        rows := w.rows.filter fun r => decide (r.id ≠ id) }).world,
       Effect.deleteEntry id ::
         (f true { w with calls := w.calls + 1,
                          rows := w.rows.filter fun r => decide (r.id ≠ id) }).log⟩ := by
  have h := deleteEntry_ok env id w (hok _)
  rw [bind_some _ _ w true (by rw [h]), h]
  rfl

theorem update_then {α : Type} (env : Env) (hok : NoFail env) (u : Entry) (f : Bool → M α)
    (w : World) :
    (updateEntry env u >>= f) w =
      ⟨(f true { w with calls := w.calls + 1,
                        rows := w.rows.map fun r => if r.id = u.id then u else r }).value,
       (f true { w with calls := w.calls + 1,
                        rows := w.rows.map fun r => if r.id = u.id then u else r }).world,
       Effect.updateEntry u ::
         (f true { w with calls := w.calls + 1,
                          rows := w.rows.map fun r => if r.id = u.id then u else r }).log⟩ := by
  have h := updateEntry_ok env u w (hok _)
  rw [bind_some _ _ w true (by rw [h]), h]
  rfl

/-- What a scan that deletes `current` and goes on establishes, from what the rest of
the scan establishes on the table without `current`. -/
theorem scan_after_delete {env : Env} {kept rest : List Entry} {current : Entry}
    {w0 w1 : World} (pre : List Effect) (hids : IdsWithin w0.rows w1.rows)
    (habs : ∀ x ∈ w1.rows, x.id ≠ current.id)
    (ih : ∃ K, (scanLoop env kept rest w1).value = some K ∧ List.Pairwise Gap K ∧
      (∀ e ∈ K, rule3 e = false) ∧
      (∀ e ∈ rest, e ∈ K ∨ Deleted (scanLoop env kept rest w1) e) ∧
      IdsWithin w1.rows (scanLoop env kept rest w1).world.rows ∧ ∀ e ∈ kept, e ∈ K) :
    ∃ K, (scanLoop env kept rest w1).value = some K ∧ List.Pairwise Gap K ∧
      (∀ e ∈ K, rule3 e = false) ∧
      (∀ e ∈ current :: rest, e ∈ K ∨
        Deleted (⟨(scanLoop env kept rest w1).value, (scanLoop env kept rest w1).world,
          pre ++ Effect.deleteEntry current.id :: (scanLoop env kept rest w1).log⟩ :
            Res (List Entry)) e) ∧
      IdsWithin w0.rows (scanLoop env kept rest w1).world.rows ∧ ∀ e ∈ kept, e ∈ K := by
  obtain ⟨K, hK, hgap, h3, hdel, hids1, hkept⟩ := ih
  refine ⟨K, hK, hgap, h3, ?_, idsWithin_trans hids hids1, hkept⟩
  intro e he
  rcases List.mem_cons.mp he with rfl | he
  · refine Or.inr ⟨by simp, ?_⟩
    intro x hx
    obtain ⟨y, hy, hyx⟩ := hids1 x hx
    rw [← hyx]; exact habs y hy
  · rcases hdel e he with h | h
    · exact Or.inl h
    · exact Or.inr ⟨by simp [h.1], h.2⟩

theorem not_mem_filter_id (rows : List Entry) (id : Nat) :
    ∀ x ∈ rows.filter (fun r => decide (r.id ≠ id)), x.id ≠ id := by
  intro x hx
  simpa using (List.mem_filter.mp hx).2

theorem gap_of_rule1 {kept : List Entry} {current : Entry}
    (hgap : List.Pairwise Gap kept.reverse) (h1 : ¬ rule1 kept.head? current = true) :
    List.Pairwise Gap (current :: kept).reverse := by
  rw [List.reverse_cons, List.pairwise_append]
  refine ⟨hgap, List.pairwise_singleton _ _, ?_⟩
  intro a ha b hb
  rw [List.mem_singleton] at hb
  subst hb
  cases kept with
  | nil => simp at ha
  | cons prev tail =>
    simp only [List.head?_cons, rule1, decide_eq_true_eq, not_lt] at h1
    rw [List.reverse_cons, List.pairwise_append] at hgap
    rw [List.mem_reverse] at ha
    rcases List.mem_cons.mp ha with rfl | ha
    · exact h1
    · have h2 : Gap a prev := hgap.2.2 a (List.mem_reverse.mpr ha) prev (by simp)
      unfold Gap at h2 ⊢
      have h5 : (0 : Int) ≤ MS_FIVE_MINUTES := by decide
      omega

theorem scanLoop_ok (env : Env) (hok : NoFail env) :
    ∀ (rest kept : List Entry) (w : World), List.Pairwise Gap kept.reverse →
      (∀ e ∈ kept, rule3 e = false) →
      ∃ K, (scanLoop env kept rest w).value = some K ∧ List.Pairwise Gap K ∧
        (∀ e ∈ K, rule3 e = false) ∧
        (∀ e ∈ rest, e ∈ K ∨ Deleted (scanLoop env kept rest w) e) ∧
        IdsWithin w.rows (scanLoop env kept rest w).world.rows ∧ ∀ e ∈ kept, e ∈ K := by
  intro rest
  induction rest with
  | nil =>
    intro kept w hgap h3
    refine ⟨kept.reverse, rfl, hgap, fun e he => h3 e (List.mem_reverse.mp he), ?_, ?_,
      fun e he => List.mem_reverse.mpr he⟩
    · intro e he; simp at he
    · exact fun x hx => ⟨x, hx, rfl⟩
  | cons current rest ih =>
    intro kept w hgap h3
    unfold GpsGate.scanLoop
    by_cases h1 : rule1 kept.head? current = true
    · simp only [h1, if_true]
      rw [delete_then env hok]
      exact scan_after_delete [] (idsWithin_filter _ _) (not_mem_filter_id _ _)
        (ih kept _ hgap h3)
    · simp only [h1]
      cases hu : rule2 kept.head? current with
      | some updated =>
        simp only [Bool.false_eq_true, if_false]
        rw [update_then env hok]
        simp only [delete_then env hok]
        exact scan_after_delete [Effect.updateEntry updated]
          (idsWithin_trans (idsWithin_update _ _) (idsWithin_filter _ _)) (not_mem_filter_id _ _)
          (ih kept _ hgap h3)
      | none =>
        simp only [Bool.false_eq_true, if_false]
        by_cases hr3 : rule3 current = true
        · simp only [hr3, if_true]
          rw [delete_then env hok]
          exact scan_after_delete [] (idsWithin_filter _ _) (not_mem_filter_id _ _)
            (ih kept _ hgap h3)
        · simp only [hr3]
          obtain ⟨K, a, b, c, d, e, f⟩ := ih (current :: kept) w (gap_of_rule1 hgap h1) (by
            intro x hx
            rcases List.mem_cons.mp hx with rfl | hx
            · simpa using hr3
            · exact h3 x hx)
          refine ⟨K, a, b, c, ?_, e, fun x hx => f x (List.mem_cons_of_mem _ hx)⟩
          intro x hx
          rcases List.mem_cons.mp hx with rfl | hx
          · exact Or.inl (f x (List.mem_cons_self _ _))
          · exact d x hx

theorem cleanupGroups_ok (env : Env) (hok : NoFail env) :
    ∀ (groups : List (String × List Entry)) (w : World),
      (cleanupGroups env groups w).value = some () ∧
      IdsWithin w.rows (cleanupGroups env groups w).world.rows ∧
      ∀ kv ∈ groups, GroupDone (cleanupGroups env groups w) kv.2 := by
  intro groups
  induction groups with
  | nil =>
    intro w
    exact ⟨rfl, fun x hx => ⟨x, hx, rfl⟩, fun kv hkv => by simp at hkv⟩
  | cons kv rest ih =>
    intro w
    obtain ⟨k, es⟩ := kv
    obtain ⟨K, hK, hgap, h3, hdel, hids, _⟩ :=
      scanLoop_ok env hok (sortByInTime es) [] w List.Pairwise.nil (by simp)
    unfold GpsGate.cleanupGroups
    rw [bind_some _ _ w K hK]
    obtain ⟨hv, hids2, hrest⟩ := ih (scanLoop env [] (sortByInTime es) w).world
    refine ⟨hv, idsWithin_trans hids hids2, ?_⟩
    intro kv hkv
    rcases List.mem_cons.mp hkv with rfl | hkv
    · refine ⟨K, hgap, h3, ?_⟩
      intro e he
      rcases hdel e (mem_sortByInTime.mpr he) with h | h
      · exact Or.inl h
      · refine Or.inr ⟨List.mem_append_left _ h.1, ?_⟩
        intro x hx
        obtain ⟨y, hy, hyx⟩ := hids2 x hx
        rw [← hyx]; exact h.2 y hy
    · obtain ⟨K2, a, b, c⟩ := hrest kv hkv
      refine ⟨K2, a, b, ?_⟩
      intro e he
      rcases c e he with h | h
      · exact Or.inl h
      · exact Or.inr ⟨List.mem_append_right _ h.1, h.2⟩

theorem entriesCleanup_ok (env : Env) (hok : NoFail env) (w : World) :
    (entriesCleanup env w).value = some () ∧
    IdsWithin w.rows (entriesCleanup env w).world.rows ∧
    ∀ kv ∈ groupByPlate (recentRows 100 w.rows), GroupDone (entriesCleanup env w) kv.2 := by
  have hrun := getLastRecentEntries_ok env 100 w (hok _)
  unfold GpsGate.entriesCleanup
  rw [bind_some _ _ w (recentRows 100 w.rows) (by rw [hrun]), hrun]
  obtain ⟨hv, hids, hg⟩ := cleanupGroups_ok env hok (groupByPlate (recentRows 100 w.rows))
    { w with calls := w.calls + 1 }
  refine ⟨hv, hids, ?_⟩
  intro kv hkv
  obtain ⟨K, a, b, c⟩ := hg kv hkv
  refine ⟨K, a, b, ?_⟩
  intro e he
  rcases c e he with h | h
  · exact Or.inl h
  · exact Or.inr ⟨List.mem_append_right _ h.1, h.2⟩

/-- Every entry read by the pass is, at its end, in the local array of its group or
deleted; entries of one plate share the local array. -/
theorem entriesCleanup_groups (env : Env) (hok : NoFail env) (w : World) (plate : String) :
    ∃ K, List.Pairwise Gap K ∧ (∀ e ∈ K, rule3 e = false) ∧
      ∀ e ∈ recentRows 100 w.rows, e.plate_number = plate →
        e ∈ K ∨ Deleted (entriesCleanup env w) e := by
  obtain ⟨_, _, hg⟩ := entriesCleanup_ok env hok w
  by_cases hex : ∃ es, (plate, es) ∈ groupByPlate (recentRows 100 w.rows)
  · obtain ⟨es, hes⟩ := hex
    obtain ⟨K, a, b, c⟩ := hg _ hes
    refine ⟨K, a, b, ?_⟩
    intro e he hp
    obtain ⟨es2, h1, h2⟩ := groupByPlate_cover _ e he
    rw [hp] at h1
    have := groupByPlate_unique _ h1 hes
    subst this
    exact c e h2
  · refine ⟨[], List.Pairwise.nil, by simp, ?_⟩
    intro e he hp
    obtain ⟨es2, h1, _⟩ := groupByPlate_cover _ e he
    rw [hp] at h1
    exact absurd ⟨es2, h1⟩ hex

theorem gap_or_gap {K : List Entry} (h : List.Pairwise Gap K) {a b : Entry} (ha : a ∈ K)
    (hb : b ∈ K) (hab : a ≠ b) : Gap a b ∨ Gap b a := by
  induction K with
  | nil => simp at ha
  | cons x xs ih =>
    rw [List.pairwise_cons] at h
    rcases List.mem_cons.mp ha with ha1 | ha1
    · rcases List.mem_cons.mp hb with hb1 | hb1
      · exact absurd (ha1.trans hb1.symm) hab
      · exact Or.inl (ha1 ▸ h.1 b hb1)
    · rcases List.mem_cons.mp hb with hb1 | hb1
      · exact Or.inr (hb1 ▸ h.1 a ha1)
      · exact ih h.2 ha1 hb1

/-! ### The reconciliation pass on two entries of one vehicle -/

theorem scanLoop_duplicate (env : Env) (kept rest : List Entry) (current : Entry)
    (h1 : rule1 kept.head? current = true) :
    scanLoop env kept (current :: rest) =
      (deleteEntry env current.id >>= fun _ => scanLoop env kept rest) := by
  rw [scanLoop]; simp only [h1, if_true]

theorem scanLoop_merge (env : Env) (kept rest : List Entry) (current updated : Entry)
    (h1 : rule1 kept.head? current = false) (h2 : rule2 kept.head? current = some updated) :
    scanLoop env kept (current :: rest) =
      (updateEntry env updated >>= fun _ =>
        deleteEntry env current.id >>= fun _ => scanLoop env kept rest) := by
  rw [scanLoop]; simp only [h1, h2, Bool.false_eq_true, if_false]

theorem scanLoop_shortStay (env : Env) (kept rest : List Entry) (current : Entry)
    (h1 : rule1 kept.head? current = false) (h2 : rule2 kept.head? current = none)
    (h3 : rule3 current = true) :
    scanLoop env kept (current :: rest) =
      (deleteEntry env current.id >>= fun _ => scanLoop env kept rest) := by
  rw [scanLoop]; simp only [h1, h2, h3, Bool.false_eq_true, if_false, if_true]

theorem scanLoop_keep (env : Env) (kept rest : List Entry) (current : Entry)
    (h1 : rule1 kept.head? current = false) (h2 : rule2 kept.head? current = none)
    (h3 : rule3 current = false) :
    scanLoop env kept (current :: rest) = scanLoop env (current :: kept) rest := by
  rw [scanLoop]; simp only [h1, h2, h3, Bool.false_eq_true, if_false]

theorem scanLoop_nil (env : Env) (kept : List Entry) (w : World) :
    scanLoop env kept [] w = ⟨some kept.reverse, w, []⟩ := by
  rw [scanLoop]; rfl

theorem recentRows_pair (A B : Entry) :
    recentRows 100 [A, B] = [A, B] ∨ recentRows 100 [A, B] = [B, A] := by
  simp only [recentRows, List.insertionSort, List.orderedInsert]
  split <;> simp

theorem groupByPlate_pair (X Y : Entry) (h : X.plate_number = Y.plate_number) :
    groupByPlate [X, Y] = [(X.plate_number, [X, Y])] := by
  simp [groupByPlate, groupPush, h]

theorem sortByInTime_pair (A B : Entry) (h : A.in_time < B.in_time) :
    sortByInTime [A, B] = [A, B] ∧ sortByInTime [B, A] = [A, B] := by
  have h1 : A.in_time ≤ B.in_time := le_of_lt h
  have h2 : ¬ B.in_time ≤ A.in_time := not_le.mpr h
  simp [sortByInTime, List.insertionSort, List.orderedInsert, h1, h2]

/-- On a table of two entries of one vehicle the pass is the read followed by the scan
of the two, the earlier one first. -/
theorem entriesCleanup_pair (env : Env) (hok : NoFail env) (w : World) (A B : Entry)
    (hrows : w.rows = [A, B] ∨ w.rows = [B, A]) (hp : A.plate_number = B.plate_number)
    (hlt : A.in_time < B.in_time) (K : List Entry)
    (hK : (scanLoop env [] [A, B] { w with calls := w.calls + 1 }).value = some K) :
    entriesCleanup env w =
      ⟨some (), (scanLoop env [] [A, B] { w with calls := w.calls + 1 }).world,
        Effect.getLastRecentEntries 100 ::
          (scanLoop env [] [A, B] { w with calls := w.calls + 1 }).log⟩ := by
  have hrun := getLastRecentEntries_ok env 100 w (hok _)
  have hgroups : ∃ k raw, groupByPlate (recentRows 100 w.rows) = [(k, raw)] ∧
      sortByInTime raw = [A, B] := by
    rcases hrows with h | h <;> rw [h]
    · rcases recentRows_pair A B with h2 | h2 <;> rw [h2]
      · exact ⟨_, _, groupByPlate_pair A B hp, (sortByInTime_pair A B hlt).1⟩
      · exact ⟨_, _, groupByPlate_pair B A hp.symm, (sortByInTime_pair A B hlt).2⟩
    · rcases recentRows_pair B A with h2 | h2 <;> rw [h2]
      · exact ⟨_, _, groupByPlate_pair B A hp.symm, (sortByInTime_pair A B hlt).2⟩
      · exact ⟨_, _, groupByPlate_pair A B hp, (sortByInTime_pair A B hlt).1⟩
  obtain ⟨k, raw, hg, hsort⟩ := hgroups
  unfold GpsGate.entriesCleanup
  rw [bind_some _ _ w (recentRows 100 w.rows) (by rw [hrun]), hrun, hg]
  simp only [GpsGate.cleanupGroups, hsort]
  rw [bind_some _ _ _ K hK]
  simp [pure_run]

/-! ### C1: rejected samples -/

theorem isValidVehicle_of_rejected (vehicle : Option Vehicle) (h : rejectedSample vehicle) :
    isValidVehicle vehicle = false := by
  cases vehicle with
  | none => rfl
  | some v =>
    obtain ⟨deviceID, location⟩ := v
    cases location with
    | none => simp [isValidVehicle]
    | some loc =>
      obtain ⟨lat, long, sp, di⟩ := loc
      rcases h with h | h | h
      · cases deviceID with
        | none => simp [isValidVehicle, truthy]
        | some d =>
          have hd : d ∉ sgn_vehicles := h d rfl
          simp [isValidVehicle, hd]
      · rcases h with h | h | h | ⟨s, h, hs⟩ <;> simp only [Option.bind] at h <;> subst h
        · simp [isValidVehicle, truthy]
        · simp [isValidVehicle, truthy]
        · simp [isValidVehicle, truthy]
        · simp [isValidVehicle, startsWith0, hs]
      · rcases h with h | h | h | ⟨s, h, hs⟩ <;> simp only [Option.bind] at h <;> subst h
        · simp [isValidVehicle, truthy]
        · simp [isValidVehicle, truthy]
        · simp [isValidVehicle, truthy]
        · simp [isValidVehicle, startsWith0, hs]

theorem checkVehicle_invalid (env : Env) (w : World) (vehicle : Option Vehicle)
    (hv : isValidVehicle vehicle = false) : checkVehicle env vehicle w = ⟨some (), w, []⟩ := by
  simp only [checkVehicle, hv]
  rfl

/-- C1: for every sample that validation rejects (deviceID not in the monitored vehicle
list, or latitude or longitude missing, empty, '0' or beginning with '0'; more
generally whenever `isValidVehicle` is false), `checkVehicle` returns with the world
unchanged and an empty log: no Entry Store read or write, no publish, no capture
request. -/
theorem checkVehicle_rejected (env : Env) (w : World) (vehicle : Option Vehicle)
    (h : rejectedSample vehicle ∨ isValidVehicle vehicle = false) :
    checkVehicle env vehicle w = ⟨some (), w, []⟩ := by
  exact checkVehicle_invalid env w vehicle (h.elim (isValidVehicle_of_rejected vehicle) id)

/-! ### C10: the frame demuxer -/

theorem occursAtHead_length {value l : List Nat} (h : occursAtHead value l = true) :
    value.length ≤ l.length := by
  simp only [occursAtHead, decide_eq_true_eq] at h
  have := congrArg List.length h
  simp only [List.length_take] at this
  omega

theorem occursAtHead_append {value l : List Nat} (c : List Nat) (h : value.length ≤ l.length) :
    occursAtHead value (l ++ c) = occursAtHead value l := by
  simp only [occursAtHead, List.take_append_of_le_length h]

theorem searchFrom_bounds {value : List Nat} (hv : value ≠ []) :
    ∀ (l : List Nat) (i : Nat), searchFrom value l i ≠ -1 →
      ∃ k : Nat, searchFrom value l i = (k : Int) ∧ i ≤ k ∧ k + value.length ≤ i + l.length := by
  intro l
  induction l with
  | nil => intro i h; simp [searchFrom, hv] at h
  | cons b bs ih =>
    intro i h
    simp only [searchFrom] at h ⊢
    by_cases hh : occursAtHead value (b :: bs) = true
    · simp only [hh, if_true]
      exact ⟨i, rfl, le_refl _, by have := occursAtHead_length hh; omega⟩
    · simp only [hh] at h ⊢
      obtain ⟨k, hk, h1, h2⟩ := ih (i + 1) h
      refine ⟨k, hk, by omega, ?_⟩
      simp only [List.length_cons]; omega

theorem searchFrom_append {value : List Nat} (hv : value ≠ []) (c : List Nat) :
    ∀ (l : List Nat) (i : Nat), searchFrom value l i ≠ -1 →
      searchFrom value (l ++ c) i = searchFrom value l i := by
  intro l
  induction l with
  | nil => intro i h; simp [searchFrom, hv] at h
  | cons b bs ih =>
    intro i h
    have hlen : value.length ≤ (b :: bs).length := by
      by_cases hh : occursAtHead value (b :: bs) = true
      · exact occursAtHead_length hh
      · simp only [searchFrom, hh] at h
        obtain ⟨k, _, h1, h2⟩ := searchFrom_bounds hv bs (i + 1) h
        simp only [List.length_cons]; omega
    have happ := occursAtHead_append c hlen
    have e1 : searchFrom value (b :: bs ++ c) i =
        if occursAtHead value (b :: bs ++ c) then (i : Int)
        else searchFrom value (bs ++ c) (i + 1) := rfl
    have e2 : searchFrom value (b :: bs) i =
        if occursAtHead value (b :: bs) then (i : Int) else searchFrom value bs (i + 1) := rfl
    rw [e1, e2, happ]
    rw [e2] at h
    by_cases hh : occursAtHead value (b :: bs) = true
    · simp only [hh, if_true]
    · simp only [hh] at h ⊢
      exact ih (i + 1) h

theorem indexOf_bounds {value : List Nat} (hv : value ≠ []) (buffer : List Nat) (off : Int)
    (hoff : 0 ≤ off) (h : indexOf buffer value off ≠ -1) :
    ∃ k : Nat, indexOf buffer value off = (k : Int) ∧ off.toNat ≤ k ∧
      k + value.length ≤ buffer.length := by
  simp only [indexOf, not_lt.mpr hoff, if_false] at h ⊢
  obtain ⟨k, hk, h1, h2⟩ := searchFrom_bounds hv _ _ h
  refine ⟨k, hk, h1, ?_⟩
  simp only [List.length_drop] at h2
  by_cases hle : off.toNat ≤ buffer.length
  · omega
  · exfalso
    rw [List.drop_eq_nil_of_le (by omega)] at h
    simp [searchFrom, hv] at h

theorem indexOf_append {value : List Nat} (hv : value ≠ []) (buffer c : List Nat) (off : Int)
    (hoff : 0 ≤ off) (h : indexOf buffer value off ≠ -1) :
    indexOf (buffer ++ c) value off = indexOf buffer value off := by
  obtain ⟨k, _, h1, h2⟩ := indexOf_bounds hv buffer off hoff h
  simp only [indexOf, not_lt.mpr hoff, if_false] at h ⊢
  rw [List.drop_append_of_le_length (by omega)]
  exact searchFrom_append hv c _ _ h

theorem nextFrame_append {buffer jpeg rest : List Nat} (c : List Nat)
    (h : nextFrame buffer = some (jpeg, rest)) :
    nextFrame (buffer ++ c) = some (jpeg, rest ++ c) := by
  unfold nextFrame at h
  split at h
  · rename_i hc
    obtain ⟨hs, he⟩ := hc
    obtain ⟨s, hsk, _, hs2⟩ := indexOf_bounds (by decide : SOI ≠ []) buffer 0 (le_refl _) hs
    have hs' := indexOf_append (by decide : SOI ≠ []) buffer c 0 (le_refl _) hs
    rw [hsk] at he h hs'
    have hoff : (0 : Int) ≤ (s : Int) + 2 := by omega
    obtain ⟨e, hek, he1, he2⟩ := indexOf_bounds (by decide : EOI ≠ []) buffer _ hoff he
    have he' := indexOf_append (by decide : EOI ≠ []) buffer c _ hoff he
    rw [hek] at h he'
    simp only [Option.some.injEq, Prod.mk.injEq] at h
    obtain ⟨hj, hr⟩ := h
    have hEOI : EOI.length = 2 := rfl
    have e1 : ((e : Int) + 2).toNat = e + 2 := by omega
    have e2 : ((s : Int)).toNat = s := by omega
    unfold nextFrame
    rw [hs', he']
    rw [if_pos ⟨by omega, by omega⟩]
    simp only [subarray, e1, e2] at hj hr ⊢
    rw [← hj, ← hr]
    have hlen : e + 2 - s ≤ (List.drop s buffer).length := by
      rw [List.length_drop]; omega
    rw [List.drop_append_of_le_length (by omega), List.drop_append_of_le_length (by omega),
      List.take_append_of_le_length hlen]
  · exact absurd h (by simp)

theorem nextFrame_length {buffer jpeg rest : List Nat} (h : nextFrame buffer = some (jpeg, rest)) :
    rest.length < buffer.length := by
  unfold nextFrame at h
  split at h
  · rename_i hc
    obtain ⟨hs, he⟩ := hc
    obtain ⟨s, hsk, _, hs2⟩ := indexOf_bounds (by decide : SOI ≠ []) buffer 0 (le_refl _) hs
    rw [hsk] at he h
    obtain ⟨e, hek, he1, he2⟩ := indexOf_bounds (by decide : EOI ≠ []) buffer _ (by omega) he
    rw [hek] at h
    simp only [Option.some.injEq, Prod.mk.injEq] at h
    have hEOI : EOI.length = 2 := rfl
    have e1 : ((e : Int) + 2).toNat = e + 2 := by omega
    rw [← h.2, e1, List.length_drop]
    omega
  · exact absurd h (by simp)

theorem nextFrame_nil : nextFrame [] = none := by decide

theorem drainFrames_succ (fuel : Nat) (buffer : List Nat) :
    drainFrames (fuel + 1) buffer =
      match nextFrame buffer with
      | some (jpeg, rest) => (jpeg :: (drainFrames fuel rest).1, (drainFrames fuel rest).2)
      | none => ([], buffer) := by
  simp only [drainFrames, nextFrame]
  split <;> rfl

/-- The fuel given to the demuxer loop is never exhausted: any two amounts of at least
the buffer length give the same result. -/
theorem drainFrames_fuel : ∀ (n m : Nat) (buffer : List Nat), buffer.length ≤ n →
    buffer.length ≤ m → drainFrames n buffer = drainFrames m buffer := by
  intro n
  induction n with
  | zero =>
    intro m buffer h _
    have hb : buffer = [] := List.length_eq_zero.mp (by omega)
    subst hb
    cases m with
    | zero => rfl
    | succ m => rw [drainFrames_succ, nextFrame_nil]; rfl
  | succ n ih =>
    intro m buffer h1 h2
    cases m with
    | zero =>
      have hb : buffer = [] := List.length_eq_zero.mp (by omega)
      subst hb
      rw [drainFrames_succ, nextFrame_nil]; rfl
    | succ m =>
      rw [drainFrames_succ, drainFrames_succ]
      cases hf : nextFrame buffer with
      | none => rfl
      | some p =>
        obtain ⟨jpeg, rest⟩ := p
        have := nextFrame_length hf
        simp only
        rw [ih m rest (by omega) (by omega)]

theorem drain_eq (buffer : List Nat) :
    drain buffer =
      match nextFrame buffer with
      | some (jpeg, rest) => (jpeg :: (drain rest).1, (drain rest).2)
      | none => ([], buffer) := by
  unfold drain
  cases hb : buffer.length with
  | zero =>
    have : buffer = [] := List.length_eq_zero.mp hb
    subst this
    rw [nextFrame_nil]; rfl
  | succ n =>
    rw [drainFrames_succ]
    cases hf : nextFrame buffer with
    | none => rfl
    | some p =>
      obtain ⟨jpeg, rest⟩ := p
      have := nextFrame_length hf
      simp only
      rw [drainFrames_fuel n rest.length rest (by omega) (le_refl _)]

theorem drain_append (c : List Nat) : ∀ (n : Nat) (buffer : List Nat), buffer.length ≤ n →
    drain (buffer ++ c) =
      ((drain buffer).1 ++ (drain ((drain buffer).2 ++ c)).1, (drain ((drain buffer).2 ++ c)).2) := by
  intro n
  induction n with
  | zero =>
    intro buffer h
    have hb : buffer = [] := List.length_eq_zero.mp (by omega)
    subst hb
    rw [drain_eq [], nextFrame_nil]
    simp
  | succ n ih =>
    intro buffer h
    rw [drain_eq buffer]
    cases hf : nextFrame buffer with
    | none => simp
    | some p =>
      obtain ⟨jpeg, rest⟩ := p
      have hlen := nextFrame_length hf
      rw [drain_eq (buffer ++ c), nextFrame_append c hf]
      simp only
      rw [ih rest (by omega)]
      simp

theorem drain_idem : ∀ (n : Nat) (buffer : List Nat), buffer.length ≤ n →
    drain (drain buffer).2 = ([], (drain buffer).2) := by
  intro n
  induction n with
  | zero =>
    intro buffer h
    have hb : buffer = [] := List.length_eq_zero.mp (by omega)
    subst hb
    rfl
  | succ n ih =>
    intro buffer h
    cases hf : nextFrame buffer with
    | none =>
      have : drain buffer = ([], buffer) := by rw [drain_eq, hf]
      rw [this]; exact this
    | some p =>
      obtain ⟨jpeg, rest⟩ := p
      have hlen := nextFrame_length hf
      have : (drain buffer).2 = (drain rest).2 := by rw [drain_eq buffer, hf]
      rw [this]
      exact ih rest (by omega)

theorem feed_eq_drain : ∀ (chunks : List (List Nat)) (buffer : List Nat),
    drain buffer = ([], buffer) → feed buffer chunks = drain (buffer ++ chunks.flatten) := by
  intro chunks
  induction chunks with
  | nil => intro buffer h; simp [feed, h]
  | cons c cs ih =>
    intro buffer _
    have hon : onData buffer c = drain (buffer ++ c) := rfl
    simp only [feed, hon, List.flatten_cons]
    rw [ih _ (drain_idem _ _ (le_refl _))]
    rw [← List.append_assoc, drain_append cs.flatten _ (buffer ++ c) (le_refl _)]

/-- C10: chunk-boundary independence of the frame demuxer.  For every list of chunks,
feeding them one at a time to the data handler, from an empty buffer, emits the same
frames and retains the same buffer as feeding their concatenation as one chunk. -/
theorem feed_chunk_independent (chunks : List (List Nat)) :
    feed [] chunks = feed [] [chunks.flatten] := by
  have h0 : drain [] = ([], []) := rfl
  rw [feed_eq_drain chunks [] h0, feed_eq_drain [chunks.flatten] [] h0]
  simp

/-! ### C5: duplicates -/

theorem survivor_in_local {α : Type} {r : Res α} {K : List Entry} {e : Entry}
    (h : e ∈ K ∨ Deleted r e) (hs : ∃ x ∈ r.world.rows, x.id = e.id) : e ∈ K := by
  rcases h with h | h
  · exact h
  · obtain ⟨x, hx, hxe⟩ := hs
    exact absurd hxe (h.2 x hx)

theorem filter_pair_left (A B : Entry) (h : A.id ≠ B.id) (rows : List Entry)
    (hrows : rows = [A, B] ∨ rows = [B, A]) :
    rows.filter (fun r => decide (r.id ≠ B.id)) = [A] := by
  rcases hrows with rfl | rfl <;> simp [List.filter, h]

/-- C5: duplicate suppression.  Provided no store call fails and ids are unique:
(1) an entry read by `entriesCleanup` whose in_time is less than 5 minutes after the
in_time of a surviving entry of the same vehicle is deleted; (2) any two surviving rows
of one vehicle among those read have in_times at least 5 minutes apart, so consecutive
survivors in ascending in_time order are; (3) two entries A (no out_time) and B of one
vehicle with A.in_time < B.in_time < A.in_time + 5 min reduce to [A], the only store
calls being the read and one delete, of B. -/
theorem entriesCleanup_duplicates (env : Env) (w : World) (hok : NoFail env)
    (hids : UniqueIds w.rows w.nextId) :
    (∀ q ∈ recentRows 100 w.rows, ∀ e ∈ recentRows 100 w.rows,
        e.plate_number = q.plate_number → e.id ≠ q.id → q.in_time ≤ e.in_time →
        e.in_time - q.in_time < MS_FIVE_MINUTES →
        (∃ x ∈ (entriesCleanup env w).world.rows, x.id = q.id) →
        Effect.deleteEntry e.id ∈ (entriesCleanup env w).log ∧
          ∀ x ∈ (entriesCleanup env w).world.rows, x.id ≠ e.id) ∧
    (∀ a ∈ (entriesCleanup env w).world.rows, ∀ b ∈ (entriesCleanup env w).world.rows,
        a.plate_number = b.plate_number → a.id ≠ b.id →
        (∃ a0 ∈ recentRows 100 w.rows, a0.id = a.id) →
        (∃ b0 ∈ recentRows 100 w.rows, b0.id = b.id) →
        MS_FIVE_MINUTES ≤ |a.in_time - b.in_time|) ∧
    (∀ A B : Entry, (w.rows = [A, B] ∨ w.rows = [B, A]) →
        A.plate_number = B.plate_number → A.out_time = none → A.in_time < B.in_time →
        B.in_time < A.in_time + MS_FIVE_MINUTES →
        (entriesCleanup env w).value = some () ∧
        (entriesCleanup env w).log = [.getLastRecentEntries 100, .deleteEntry B.id] ∧
        (entriesCleanup env w).world.rows = [A]) := by
  have h5 : (0 : Int) < MS_FIVE_MINUTES := by decide
  refine ⟨?_, ?_, ?_⟩
  · intro q hq e he hp hne hle hlt hsurv
    obtain ⟨K, hgap, _, hK⟩ := entriesCleanup_groups env hok w q.plate_number
    have hqK := survivor_in_local (hK q hq rfl) hsurv
    rcases hK e he hp with h | h
    · have hqe : q ≠ e := fun h => hne (h ▸ rfl)
      rcases gap_or_gap hgap hqK h hqe with g | g
      · unfold Gap at g; omega
      · unfold Gap at g; omega
    · exact h
  · intro a ha b hb hp hne ⟨a0, ha0, haid⟩ ⟨b0, hb0, hbid⟩
    obtain ⟨_, hdom⟩ := entriesCleanup_inv env w hids
    obtain ⟨ra, hra, hra1, hra2, _, hra4, _⟩ := hdom a ha
    obtain ⟨rb, hrb, hrb1, hrb2, _, hrb4, _⟩ := hdom b hb
    have ea : ra = a0 := uniqueIds_eq_of_id hids hra (mem_recentRows ha0) (hra1.trans haid.symm)
    have eb : rb = b0 := uniqueIds_eq_of_id hids hrb (mem_recentRows hb0) (hrb1.trans hbid.symm)
    subst ea eb
    obtain ⟨K, hgap, _, hK⟩ := entriesCleanup_groups env hok w ra.plate_number
    have haK := survivor_in_local (hK ra ha0 rfl) ⟨a, ha, haid.symm⟩
    have hbK := survivor_in_local (hK rb hb0 (by rw [hrb2, ← hp, hra2])) ⟨b, hb, hbid.symm⟩
    have hab : ra ≠ rb := fun h => hne (by rw [← haid, ← hbid, h])
    rw [← hra4, ← hrb4]
    rcases gap_or_gap hgap haK hbK hab with g | g
    · unfold Gap at g
      rw [abs_sub_comm]
      exact le_trans g (le_abs_self _)
    · unfold Gap at g
      exact le_trans g (le_abs_self _)
  · intro A B hrows hp hout hlt hlt2
    have hne : A.id ≠ B.id := by
      intro h
      have hA : A ∈ w.rows := by rcases hrows with h | h <;> simp [h]
      have hB : B ∈ w.rows := by rcases hrows with h | h <;> simp [h]
      have := uniqueIds_eq_of_id hids hA hB h
      rw [this] at hlt
      exact lt_irrefl _ hlt
    have hr1 : rule1 (some A) B = true := by
      simp only [rule1, decide_eq_true_eq]; omega
    have hscan : scanLoop env [] [A, B] { w with calls := w.calls + 1 } =
        ⟨some [A], { w with calls := w.calls + 1 + 1,
                            rows := w.rows.filter fun r => decide (r.id ≠ B.id) },
          [.deleteEntry B.id]⟩ := by
      rw [scanLoop_keep env [] [B] A rfl rfl (by simp [rule3, hout]),
        scanLoop_duplicate env [A] [] B hr1, delete_then env hok, scanLoop_nil]
      rfl
    rw [entriesCleanup_pair env hok w A B hrows hp hlt [A] (by rw [hscan]), hscan]
    exact ⟨rfl, rfl, filter_pair_left A B hne _ hrows⟩

/-! ### C7: short stays -/

/-- C7: short-stay suppression.  Provided no store call fails, every entry read by
`entriesCleanup` that has an out_time less than 5 minutes after its in_time (the first
entry of a vehicle included) is deleted: the pass completes, a delete of its id is
issued, and no row with its id is left in the store. -/
theorem entriesCleanup_short_stay (env : Env) (w : World) (hok : NoFail env) (e : Entry)
    (out : Int) (he : e ∈ recentRows 100 w.rows) (ho : e.out_time = some out)
    (hs : out - e.in_time < MS_FIVE_MINUTES) :
    (entriesCleanup env w).value = some () ∧
      Effect.deleteEntry e.id ∈ (entriesCleanup env w).log ∧
      ∀ x ∈ (entriesCleanup env w).world.rows, x.id ≠ e.id := by
  obtain ⟨K, _, h3, hK⟩ := entriesCleanup_groups env hok w e.plate_number
  refine ⟨(entriesCleanup_ok env hok w).1, ?_⟩
  rcases hK e he rfl with h | h
  · have := h3 e h
    simp [rule3, ho, hs] at this
  · exact h

/-! ### C6: session merge -/

/-- C6: session merge.  For a store holding two entries A and B of one vehicle with
A.out_time - A.in_time >= 5 min, B.in_time - A.in_time >= 5 min,
B.in_time - A.out_time < 5 min and B.out_time set, and no failing store call,
`entriesCleanup` issues, after its read, exactly one update, of A with out_time set to
B.out_time and every other field unchanged, and exactly one delete, of B; the store
then holds the single entry spanning in = A.in_time, out = B.out_time. -/
theorem entriesCleanup_merge (env : Env) (w : World) (hok : NoFail env)
    (hids : UniqueIds w.rows w.nextId) (A B : Entry) (aout bout : Int)
    (hrows : w.rows = [A, B] ∨ w.rows = [B, A]) (hp : A.plate_number = B.plate_number)
    (hA : A.out_time = some aout) (hB : B.out_time = some bout)
    (h1 : MS_FIVE_MINUTES ≤ aout - A.in_time) (h2 : MS_FIVE_MINUTES ≤ B.in_time - A.in_time)
    (h3 : B.in_time - aout < MS_FIVE_MINUTES) :
    (entriesCleanup env w).value = some () ∧
    (entriesCleanup env w).log =
      [.getLastRecentEntries 100, .updateEntry { A with out_time := some bout },
        .deleteEntry B.id] ∧
    (entriesCleanup env w).world.rows = [{ A with out_time := some bout }] := by
  have h5 : (0 : Int) < MS_FIVE_MINUTES := by decide
  have hlt : A.in_time < B.in_time := by omega
  have hne : A.id ≠ B.id := by
    intro h
    have hA : A ∈ w.rows := by rcases hrows with h | h <;> simp [h]
    have hB : B ∈ w.rows := by rcases hrows with h | h <;> simp [h]
    have := uniqueIds_eq_of_id hids hA hB h
    rw [this] at hlt
    exact lt_irrefl _ hlt
  have hr3 : rule3 A = false := by
    simp only [rule3, hA, decide_eq_false_iff_not, not_lt]; exact h1
  have hr1 : rule1 (some A) B = false := by
    simp only [rule1, decide_eq_false_iff_not, not_lt]; exact h2
  have hr2 : rule2 (some A) B = some { A with out_time := some bout } := by
    simp only [rule2, hA, hB, h3, if_true]
  have hscan : scanLoop env [] [A, B] { w with calls := w.calls + 1 } =
      ⟨some [A], { w with calls := w.calls + 1 + 1 + 1,
                          rows := (w.rows.map fun r =>
                            if r.id = A.id then { A with out_time := some bout } else r).filter
                              fun r => decide (r.id ≠ B.id) },
        [.updateEntry { A with out_time := some bout }, .deleteEntry B.id]⟩ := by
    rw [scanLoop_keep env [] [B] A rfl rfl hr3,
      scanLoop_merge env [A] [] B _ hr1 hr2, update_then env hok]
    simp only [delete_then env hok, scanLoop_nil]
    rfl
  rw [entriesCleanup_pair env hok w A B hrows hp hlt [A] (by rw [hscan]), hscan]
  refine ⟨rfl, rfl, ?_⟩
  have hne' : B.id ≠ A.id := fun h => hne h.symm
  rcases hrows with h | h <;> simp [h, List.filter, hne, hne']

/-! ### C8: session merge with an open later entry -/

/-- C8 (the code at a failing input): previous = (id 1, in 0, out 10 min, closed) and
current = (id 2, in 12 min, no out_time, open) of one vehicle.  The pass rewrites
previous unchanged and deletes current, so the store is left with previous still
closed at 10 min; with current closed instead (isInside false), previous is written
with out_time null and isInside false.  In neither case is previous left open. -/
theorem entriesCleanup_open_later_entry :
    (entriesCleanup envOk (worldOf [mergePrev, mergeCurOpen])).log =
        [.getLastRecentEntries 100, .updateEntry mergePrev, .deleteEntry 2] ∧
      (entriesCleanup envOk (worldOf [mergePrev, mergeCurOpen])).world.rows = [mergePrev] ∧
      (entriesCleanup envOk (worldOf [mergePrev, mergeCurClosed])).world.rows =
        [{ mergePrev with out_time := none, isInside := false }] := by
  decide

/-! ### C9: a failing store call -/

theorem stops_pure {α : Type} (env : Env) (a : α) :
    StopsAtFailure env (pure a : M α) := by
  intro w
  refine ⟨rfl, ?_, ?_⟩
  · intro n h1 h2; exact absurd h2 (by simp [pure_run]; omega)
  · intro h; simp [pure_run] at h

theorem stops_bind {α β : Type} {env : Env} {m : M α} {f : α → M β}
    (hm : StopsAtFailure env m) (hf : ∀ a, StopsAtFailure env (f a)) :
    StopsAtFailure env (m >>= f) := by
  intro w
  obtain ⟨ha, hb, hc⟩ := hm w
  cases hv : (m w).value with
  | none => rw [bind_none m f w hv]; exact ⟨ha, fun n h1 h2 h3 => ⟨(hb n h1 h2 h3).1, rfl⟩,
      fun _ => hc hv⟩
  | some a =>
    rw [bind_some m f w a hv]
    obtain ⟨ha2, hb2, hc2⟩ := hf a (m w).world
    refine ⟨by simp only [List.length_append]; omega, ?_, ?_⟩
    · intro n h1 h2 h3
      by_cases hn : n < (m w).world.calls
      · have := (hb n h1 hn h3).2
        rw [hv] at this
        exact absurd this (by simp)
      · exact hb2 n (by omega) h2 h3
    · intro h
      obtain ⟨h4, h5⟩ := hc2 h
      refine ⟨?_, h5⟩
      show w.calls < (f a (m w).world).world.calls
      omega

theorem stops_storeCall {α : Type} (env : Env) (eff : Effect) (f : World → α × World)
    (hf : ∀ w, (f w).2.calls = w.calls) : StopsAtFailure env (storeCall env eff f) := by
  intro w
  cases h : env.fails w.calls with
  | true =>
    rw [storeCall_fail env eff f w h]
    refine ⟨rfl, ?_, ?_⟩
    · intro n h1 h2 _
      simp only at h2 ⊢
      exact ⟨by omega, trivial⟩
    · intro _
      simp only [Nat.add_sub_cancel]
      exact ⟨by omega, h⟩
  | false =>
    rw [storeCall_ok env eff f w h]
    refine ⟨by simp [hf], ?_, ?_⟩
    · intro n h1 h2 h3
      simp only [hf] at h2
      have : n = w.calls := by omega
      rw [this, h] at h3
      exact absurd h3 (by simp)
    · intro h2; simp at h2

theorem stops_scanLoop (env : Env) :
    ∀ (rest kept : List Entry), StopsAtFailure env (scanLoop env kept rest) := by
  intro rest
  induction rest with
  | nil => intro kept; rw [GpsGate.scanLoop]; exact stops_pure env _
  | cons current rest ih =>
    intro kept
    have hd : StopsAtFailure env (deleteEntry env current.id) :=
      stops_storeCall env _ _ fun _ => rfl
    rw [GpsGate.scanLoop]
    split
    · exact stops_bind hd fun _ => ih kept
    · split
      · exact stops_bind (stops_storeCall env _ _ fun _ => rfl) fun _ =>
          stops_bind hd fun _ => ih kept
      · split
        · exact stops_bind hd fun _ => ih kept
        · exact ih _

theorem stops_cleanupGroups (env : Env) :
    ∀ groups : List (String × List Entry), StopsAtFailure env (cleanupGroups env groups) := by
  intro groups
  induction groups with
  | nil => rw [GpsGate.cleanupGroups]; exact stops_pure env _
  | cons kv rest ih =>
    obtain ⟨k, es⟩ := kv
    rw [GpsGate.cleanupGroups]
    exact stops_bind (stops_scanLoop env _ _) fun _ => ih

/-- C9 (as the code behaves): a store call that fails during `entriesCleanup` aborts
the pass.  Every effect the pass logs is a store call; if the call numbered `n` is
issued by the pass and fails, it is the last call issued (no read, update or delete
follows, for that vehicle or any other) and the pass throws; and the pass throws only
in that way. -/
theorem entriesCleanup_aborts_on_failure (env : Env) (w : World) (n : Nat)
    (hn : w.calls ≤ n) (hissued : n < (entriesCleanup env w).world.calls)
    (hfail : env.fails n = true) :
    (entriesCleanup env w).value = none ∧
      (entriesCleanup env w).world.calls = n + 1 ∧
      (entriesCleanup env w).log.length = n + 1 - w.calls := by
  have h : StopsAtFailure env (entriesCleanup env) := by
    unfold GpsGate.entriesCleanup
    exact stops_bind (stops_storeCall env _ _ fun _ => rfl) fun _ =>
      stops_cleanupGroups env _
  obtain ⟨ha, hb, _⟩ := h w
  obtain ⟨h1, h2⟩ := hb n hn hissued hfail
  exact ⟨h2, h1, by omega⟩

/-- C9 (the claim fails): with the duplicates 2 and 4 of two vehicles in the store and
the first delete failing, the pass throws after the read and the delete of 4; the
delete of 2, which the pass issues when no call fails, is never issued. -/
theorem entriesCleanup_failure_skips_groups :
    (entriesCleanup envFailSecond (worldOf twoVehicles)).value = none ∧
      (entriesCleanup envFailSecond (worldOf twoVehicles)).log =
        [.getLastRecentEntries 100, .deleteEntry 4] ∧
      (entriesCleanup envOk (worldOf twoVehicles)).log =
        [.getLastRecentEntries 100, .deleteEntry 4, .deleteEntry 2] := by
  decide

/-- An instance of C9: the second store call fails. -/
theorem entriesCleanup_aborts_on_failure_witness :
    (entriesCleanup envFailSecond (worldOf twoVehicles)).value = none ∧
      (entriesCleanup envFailSecond (worldOf twoVehicles)).world.calls = 1 + 1 ∧
      (entriesCleanup envFailSecond (worldOf twoVehicles)).log.length =
        1 + 1 - (worldOf twoVehicles).calls :=
  entriesCleanup_aborts_on_failure envFailSecond (worldOf twoVehicles) 1 (by decide)
    (by decide) (by decide)

/-! ### C2: repeated samples inside the entry radius -/

/-- C2 (the code at a failing input): three accepted samples of SGN-32001, each 70 m
from the station (inside the 90 m entry radius), processed one after another from an
empty store.  The first inserts an entry, the second, being beyond 60 m, checks it out
with an update, and the third inserts a second entry. -/
theorem checkVehicles_flaps_inside_radius :
    isValidVehicle (some sampleVehicle) = true ∧
      calculateVehiclePosition (envAt 70) sampleVehicle stationSGN = (true, some 70) ∧
      (checkVehicles (envAt 70) [some sampleVehicle, some sampleVehicle, some sampleVehicle]
          (worldOf [])).log.filter Effect.isStoreWrite =
        [.insertEntry ⟨"SGN-32001", "SGN", 1000000, none, true⟩,
         .updateEntry ⟨1, "SGN-32001", "SGN", 1000000, some 1000004, false⟩,
         .insertEntry ⟨"SGN-32001", "SGN", 1000006, none, true⟩] := by
  decide

/-! ### C3: check-out -/

/-- C3 (the claim fails): an accepted sample of SGN-32001, 100 m from the station,
whose current entry (id 3) is open, while the store also holds two sessions of
SGN-32002.  No reconciliation pass has run yet, so one runs after the check-out and
merges the two sessions: the processing issues two updates and a delete. -/
theorem checkVehicle_checkOut_two_updates :
    isValidVehicle (some sampleVehicle) = true ∧
      beyondExit (calculateVehiclePosition (envAt 100) sampleVehicle stationSGN).2 = true ∧
      findVehicleEntry (recentRows 100 openAndMergeable) sampleVehicle.deviceID "SGN" =
        some ⟨3, "SGN-32001", "SGN", 0, none, true⟩ ∧
      (checkVehicle (envAt 100) (some sampleVehicle) (worldOf openAndMergeable)).log.filter
          Effect.isStoreWrite =
        [.updateEntry ⟨3, "SGN-32001", "SGN", 0, some 1000000, false⟩,
         .updateEntry ⟨1, "SGN-32002", "SGN", 0, some 1200000, false⟩,
         .deleteEntry 2] := by
  decide!

theorem quiet_pure {α : Type} (a : α) : Quiet (pure a : M α) := fun _ => ⟨rfl, rfl, rfl, rfl⟩

theorem quiet_bind {α β : Type} {m : M α} {f : α → M β} (hm : Quiet m) (hf : ∀ a, Quiet (f a)) :
    Quiet (m >>= f) := by
  intro w
  obtain ⟨h1, h2, h3, h4⟩ := hm w
  cases hv : (m w).value with
  | none => rw [bind_none m f w hv]; exact ⟨h1, h2, h3, h4⟩
  | some a =>
    rw [bind_some m f w a hv]
    obtain ⟨g1, g2, g3, g4⟩ := hf a (m w).world
    exact ⟨by simp only [List.filter_append, h1, g1, List.append_nil], g2.trans h2,
      g3.trans h3, g4.trans h4⟩

theorem quiet_newDate (env : Env) : Quiet (newDate env) := fun _ => ⟨rfl, rfl, rfl, rfl⟩

theorem quiet_emitVehicleEntries (es : List Entry) (ns : List NewEntry) :
    Quiet (emitVehicleEntries es ns) := by
  intro w
  unfold GpsGate.emitVehicleEntries
  split <;> exact ⟨rfl, rfl, rfl, rfl⟩

theorem quiet_emitVehicleUpdate (u : VehicleUpdate) : Quiet (emitVehicleUpdate u) := by
  intro w
  unfold GpsGate.emitVehicleUpdate
  split <;> exact ⟨rfl, rfl, rfl, rfl⟩

theorem quiet_captureVehicle (env : Env) (plate url : String) (dir : Bool) :
    Quiet (captureVehicle env plate url dir) := by
  unfold GpsGate.captureVehicle
  refine quiet_bind (fun _ => ⟨rfl, rfl, rfl, rfl⟩) fun _ => ?_
  simp only [isFirstStart, Bool.false_eq_true, if_false]
  refine quiet_bind (fun _ => ⟨rfl, rfl, rfl, rfl⟩) fun recording => ?_
  split
  · exact quiet_pure _
  · refine quiet_bind ?_ fun _ => quiet_bind (quiet_newDate env) fun _ =>
      quiet_bind (fun _ => ⟨rfl, rfl, rfl, rfl⟩) fun _ => fun _ => ⟨rfl, rfl, rfl, rfl⟩
    intro w
    unfold getDownstreamSocket
    split <;> exact ⟨rfl, rfl, rfl, rfl⟩

theorem checkOut_find (entries : List Entry) (deviceID : Option String) (code : String) :
    entries.find? (fun e => !(some e.plate_number != deviceID || e.station != code)) =
      findVehicleEntry entries deviceID code := by
  unfold findVehicleEntry
  congr 1
  funext e
  cases h1 : (some e.plate_number == deviceID) <;> cases h2 : (e.station == code) <;>
    simp [bne, h1, h2]

theorem summary_bind_some {α β : Type} (m : M α) (f : α → M β) (w : World) (a : α)
    (h : (m w).value = some a) :
    summary ((m >>= f) w) =
      ((summary (m w)).1 ++ (summary (f a (m w).world)).1, (summary (f a (m w).world)).2) := by
  rw [bind_some m f w a h]
  simp [summary]

theorem summary_bind_quiet {α β : Type} (m : M α) (f : α → M β) (w : World) (hm : Quiet m)
    (hrows : (m w).world.rows = w.rows → (m w).world.nextId = w.nextId →
      (m w).world.LAST_CLEANUP_TIME = w.LAST_CLEANUP_TIME →
      ∀ a, (m w).value = some a → summary (f a (m w).world) = ([], w.rows, w.nextId,
        w.LAST_CLEANUP_TIME)) :
    summary ((m >>= f) w) = ([], w.rows, w.nextId, w.LAST_CLEANUP_TIME) := by
  obtain ⟨h1, h2, h3, h4⟩ := hm w
  cases hv : (m w).value with
  | none => rw [bind_none m f w hv]; simp [summary, h1, h2, h3, h4]
  | some a =>
    rw [summary_bind_some m f w a hv, hrows h2 h3 h4 a hv]
    simp [summary, h1]

theorem summary_quiet {α : Type} (m : M α) (w : World) (hm : Quiet m) :
    summary (m w) = ([], w.rows, w.nextId, w.LAST_CLEANUP_TIME) := by
  obtain ⟨h1, h2, h3, h4⟩ := hm w
  simp [summary, h1, h2, h3, h4]

/-- The check-out of the current entry `e` when no store call fails: one update, of `e`
closed at the clock reading, and nothing else written. -/
theorem checkOut_run (env : Env) (hok : NoFail env) (v : Vehicle) (code : String) (w : World)
    (e : Entry) (hcur : findVehicleEntry (recentRows 100 w.rows) v.deviceID code = some e) :
    summary (checkOut env code v w) =
      ([.updateEntry { e with out_time := some (env.clock w.ticks), isInside := false }],
        (w.rows.map fun r => if r.id = e.id then
          { e with out_time := some (env.clock w.ticks), isInside := false } else r),
        w.nextId, w.LAST_CLEANUP_TIME) := by
  have hrun := getLastRecentEntries_ok env 100 w (hok _)
  unfold GpsGate.checkOut
  rw [summary_bind_some _ _ w (recentRows 100 w.rows) (by rw [hrun]), hrun]
  simp only [checkOut_find, hcur]
  rw [summary_bind_some _ _ _ (env.clock w.ticks) rfl]
  have hup := updateEntry_ok env
    { e with out_time := some (env.clock w.ticks), isInside := false }
    (newDate env { w with calls := w.calls + 1 }).world (hok _)
  rw [summary_bind_some _ _ _ true (by rw [hup]), hup]
  rw [summary_quiet _ _ (quiet_bind (quiet_emitVehicleEntries _ _)
    fun _ => quiet_captureVehicle env _ _ _)]
  simp [summary, GpsGate.newDate, Effect.isStoreWrite]

theorem cleanupDue_false (env : Env) (t : Int) (hnotdue : ∀ n, env.clock n - t ≤ CLEANUP_INTERVAL_MS)
    (n : Nat) : cleanupDue (some t) (env.clock n) = false := by
  simp only [cleanupDue, decide_eq_false_iff_not, not_lt]
  exact hnotdue n

theorem processVehicleAtStation_checkOut (env : Env) (hok : NoFail env) (v : Vehicle)
    (w : World) (e : Entry) (t : Int)
    (hfar : beyondExit (calculateVehiclePosition env v stationSGN).2 = true)
    (hcur : findVehicleEntry (recentRows 100 w.rows) v.deviceID "SGN" = some e)
    (hopen : e.isInside = true) (hlast : w.LAST_CLEANUP_TIME = some t)
    (hnotdue : ∀ n, env.clock n - t ≤ CLEANUP_INTERVAL_MS) :
    summary (processVehicleAtStation env v stationSGN (recentRows 100 w.rows) w) =
      ([.updateEntry { e with out_time := some (env.clock w.ticks), isInside := false }],
        (w.rows.map fun r => if r.id = e.id then
          { e with out_time := some (env.clock w.ticks), isInside := false } else r),
        w.nextId, some t) := by
  have hco := checkOut_run env hok v "SGN" w e hcur
  have hcode : stationSGN.code = "SGN" := rfl
  unfold GpsGate.processVehicleAtStation
  simp only [hcode, hcur, entryIsInside, hopen, hfar, Bool.not_true, Bool.and_false,
    Bool.false_eq_true, if_false, Bool.and_self, if_true]
  cases hv : (checkOut env "SGN" v w).value with
  | none =>
    rw [bind_none _ _ w hv]
    rw [← hlast, ← hco]
    rfl
  | some a =>
    rw [summary_bind_some _ _ w a hv, hco]
    have hl : (checkOut env "SGN" v w).world.LAST_CLEANUP_TIME = some t := by
      have := congrArg (fun x => x.2.2.2) hco
      simp only [summary] at this
      rw [this, hlast]
    rw [summary_bind_some _ _ _ (env.clock (checkOut env "SGN" v w).world.ticks) rfl]
    rw [summary_bind_some _ _ _ (some t) (by simp [readLastCleanup, GpsGate.newDate, hl])]
    simp only [cleanupDue_false env t hnotdue, Bool.false_eq_true, if_false]
    have h2 := congrArg (fun x => x.2) hco
    simp only [summary] at h2
    simp only [Prod.mk.injEq] at h2
    simp [summary, GpsGate.newDate, readLastCleanup, pure_run, h2.1, h2.2.1, hl]

theorem emitVehicleUpdate_run (u : VehicleUpdate) (w : World) :
    (emitVehicleUpdate u w).value = some () ∧ (emitVehicleUpdate u w).world = w ∧
      (emitVehicleUpdate u w).log.filter Effect.isStoreWrite = [] := by
  unfold GpsGate.emitVehicleUpdate
  split <;> exact ⟨rfl, rfl, rfl⟩

theorem summary_then_pure {α : Type} (m : M α) (w : World) :
    summary ((m >>= fun _ => (pure () : M Unit)) w) = summary (m w) := by
  cases hv : (m w).value with
  | none => rw [bind_none _ _ w hv]; rfl
  | some a => rw [summary_bind_some _ _ w a hv]; simp [summary, pure_run]

/-- C3 (as the code behaves): when an accepted sample is more than 60 m from the
station, the current Entry `e` for (vehicle, station) is open, no store call fails and
no reconciliation pass is due (LAST_CLEANUP_TIME is set and no clock reading is more
than 5 minutes after it), processing the sample issues exactly one store write: an
update of `e` with out_time set to the clock reading taken by the check-out and
isInside false, its id, plate_number, station and in_time unchanged.  The store then
holds that record in place of `e`. -/
theorem checkVehicle_checkOut (env : Env) (w : World) (v : Vehicle) (e : Entry) (t : Int)
    (hok : NoFail env) (hvalid : isValidVehicle (some v) = true)
    (hfar : beyondExit (calculateVehiclePosition env v stationSGN).2 = true)
    (hcur : findVehicleEntry (recentRows 100 w.rows) v.deviceID "SGN" = some e)
    (hopen : e.isInside = true) (hlast : w.LAST_CLEANUP_TIME = some t)
    (hnotdue : ∀ n, env.clock n - t ≤ CLEANUP_INTERVAL_MS) :
    (checkVehicle env (some v) w).log.filter Effect.isStoreWrite =
        [.updateEntry ⟨e.id, e.plate_number, e.station, e.in_time, some (env.clock w.ticks),
          false⟩] ∧
      (checkVehicle env (some v) w).world.rows =
        w.rows.map fun r => if r.id = e.id then
          ⟨e.id, e.plate_number, e.station, e.in_time, some (env.clock w.ticks), false⟩ else r := by
  have hsum : summary (checkVehicle env (some v) w) =
      ([.updateEntry { e with out_time := some (env.clock w.ticks), isInside := false }],
        (w.rows.map fun r => if r.id = e.id then
          { e with out_time := some (env.clock w.ticks), isInside := false } else r),
        w.nextId, some t) := by
    obtain ⟨he1, he2, he3⟩ := emitVehicleUpdate_run (createVehicleUpdate v) w
    have hrun := getLastRecentEntries_ok env 100 w (hok _)
    unfold GpsGate.checkVehicle
    simp only [hvalid, Bool.not_true, Bool.false_eq_true, if_false]
    rw [summary_bind_some _ _ w () he1, he2]
    rw [summary_bind_some _ _ w (recentRows 100 w.rows) (by rw [hrun]), hrun]
    simp only [sgn_stations, forStations]
    rw [summary_then_pure]
    rw [processVehicleAtStation_checkOut env hok v { w with calls := w.calls + 1 } e t hfar
      hcur hopen hlast hnotdue]
    simp [summary, he3, Effect.isStoreWrite]
  simp only [summary, Prod.mk.injEq] at hsum
  exact ⟨hsum.1, hsum.2.1⟩

/-! ### C4: at most one open entry per (plate, station) -/

theorem oneOpen_of_atMost {rows : List Entry} (h : AtMostOneOpen rows) : OneOpen rows := by
  intro a ha b hb hao hbo hp hs
  have hl := h a.plate_number a.station
  have ha' : a ∈ rows.filter fun e =>
      decide (e.plate_number = a.plate_number ∧ e.station = a.station) && e.isInside :=
    List.mem_filter.mpr ⟨ha, by simp [hao]⟩
  have hb' : b ∈ rows.filter fun e =>
      decide (e.plate_number = a.plate_number ∧ e.station = a.station) && e.isInside :=
    List.mem_filter.mpr ⟨hb, by simp [hbo, hp, hs]⟩
  generalize (rows.filter fun e =>
      decide (e.plate_number = a.plate_number ∧ e.station = a.station) && e.isInside) = L
    at hl ha' hb'
  match L, hl, ha', hb' with
  | [x], _, ha', hb' =>
    rw [List.mem_singleton] at ha' hb'
    rw [ha', hb']
  | _ :: _ :: _, hl, _, _ => simp at hl

theorem oneOpen_atMost {rows : List Entry} {n : Nat} (hu : UniqueIds rows n) (h : OneOpen rows) :
    AtMostOneOpen rows := by
  intro plate station
  have hnd : rows.Nodup := List.Nodup.of_map _ hu.1
  have hL : (rows.filter fun e =>
      decide (e.plate_number = plate ∧ e.station = station) && e.isInside).Nodup :=
    hnd.filter _
  have hall : ∀ a ∈ (rows.filter fun e =>
      decide (e.plate_number = plate ∧ e.station = station) && e.isInside),
      ∀ b ∈ (rows.filter fun e =>
      decide (e.plate_number = plate ∧ e.station = station) && e.isInside), a = b := by
    intro a ha b hb
    obtain ⟨ha1, ha2⟩ := List.mem_filter.mp ha
    obtain ⟨hb1, hb2⟩ := List.mem_filter.mp hb
    simp only [Bool.and_eq_true, decide_eq_true_eq] at ha2 hb2
    exact uniqueIds_eq_of_id hu ha1 hb1 (h a ha1 b hb1 ha2.2 hb2.2 (ha2.1.1.trans hb2.1.1.symm)
      (ha2.1.2.trans hb2.1.2.symm))
  generalize (rows.filter fun e =>
      decide (e.plate_number = plate ∧ e.station = station) && e.isInside) = L at hL hall
  match L, hL, hall with
  | [], _, _ => simp
  | [_], _, _ => simp
  | x :: y :: _, hL, hall =>
    have := hall x (by simp) y (by simp)
    subst this
    simp at hL

theorem oneOpen_of_dom {rows0 rows : List Entry} (hd : Dom rows0 rows) (h : OneOpen rows0) :
    OneOpen rows := by
  intro a ha b hb hao hbo hp hs
  obtain ⟨a0, ha0, a1, a2, a3, _, a5⟩ := hd a ha
  obtain ⟨b0, hb0, b1, b2, b3, _, b5⟩ := hd b hb
  rw [← a1, ← b1]
  exact h a0 ha0 b0 hb0 (a5 hao) (b5 hbo) (by rw [a2, b2, hp]) (by rw [a3, b3, hs])

theorem storeInv_of_cleanupInv {rows0 rows : List Entry} {n0 n : Nat} (h0 : StoreInv rows0 n0)
    (h : CleanupInv rows0 rows n) : StoreInv rows n :=
  ⟨h.1, oneOpen_of_dom h.2 h0.2⟩

theorem keeps_entriesCleanup (env : Env) : Keeps StoreInv (entriesCleanup env) := by
  intro w hw
  obtain ⟨h1, h2⟩ := entriesCleanup_inv env w hw.1
  exact ⟨h1, oneOpen_of_dom h2 hw.2⟩

theorem keeps_checkOut (env : Env) (code : String) (v : Vehicle) :
    Keeps StoreInv (checkOut env code v) := by
  intro w hw
  unfold GpsGate.checkOut
  cases hf : env.fails w.calls with
  | true =>
    have hrun := getLastRecentEntries_fail env 100 w hf
    rw [bind_none _ _ w (by rw [hrun]), hrun]
    exact hw
  | false =>
    have hrun := getLastRecentEntries_ok env 100 w hf
    rw [bind_some _ _ w (recentRows 100 w.rows) (by rw [hrun]), hrun]
    simp only
    generalize hfind : List.find?
      (fun e => !(some e.plate_number != v.deviceID || e.station != code))
      (recentRows 100 w.rows) = found
    cases found with
    | none => exact hw
    | some entry =>
      have hmem : entry ∈ w.rows := mem_recentRows (List.mem_of_find?_eq_some hfind)
      refine storeInv_of_cleanupInv hw ?_
      have hk : Keeps (CleanupInv w.rows) (newDate env >>= fun out_time =>
          updateEntry env { entry with out_time := some out_time, isInside := false } >>=
            fun _ => emitVehicleEntries (modifyFirst
              (fun e => !(some e.plate_number != v.deviceID || e.station != code))
              (fun e => { e with out_time := some out_time, isInside := false })
              (recentRows 100 w.rows)) [] >>=
            fun _ => captureVehicle env (v.deviceID.getD "") env.rtsp_cam_out false) :=
        keeps_bind (keeps_newDate _ env) fun out_time =>
          keeps_bind (keeps_updateEntry w.rows env _ entry hmem rfl rfl rfl rfl (by simp))
            fun _ => keeps_bind (keeps_emitVehicleEntries _ _ _) fun _ =>
              keeps_captureVehicle _ env _ _ _
      exact hk { w with calls := w.calls + 1 } ⟨hw.1, dom_refl _⟩

theorem storeInv_insert {rows : List Entry} {n : Nat} (h : StoreInv rows n) (e : NewEntry)
    (hnew : ∀ a ∈ rows, a.isInside = true → a.plate_number = e.plate_number →
      a.station = e.station → False) :
    StoreInv (rows ++ [e.withId n]) (n + 1) := by
  obtain ⟨⟨hnd, hlt⟩, hone⟩ := h
  refine ⟨⟨?_, ?_⟩, ?_⟩
  · rw [List.map_append, List.nodup_append]
    refine ⟨hnd, by simp, ?_⟩
    intro x hx hx2
    obtain ⟨a, ha, rfl⟩ := List.mem_map.mp hx
    simp only [List.map_cons, List.map_nil, List.mem_singleton, NewEntry.withId] at hx2
    have := hlt a ha
    omega
  · intro r hr
    rcases List.mem_append.mp hr with hr | hr
    · have := hlt r hr; omega
    · rw [List.mem_singleton] at hr; subst hr; simp [NewEntry.withId]
  · intro a ha b hb hao hbo hp hs
    rcases List.mem_append.mp ha with ha | ha <;> rcases List.mem_append.mp hb with hb | hb
    · exact hone a ha b hb hao hbo hp hs
    · rw [List.mem_singleton] at hb; subst hb
      exact absurd (hnew a ha hao hp hs) id
    · rw [List.mem_singleton] at ha; subst ha
      exact absurd (hnew b hb hbo hp.symm hs.symm) id
    · rw [List.mem_singleton] at ha hb; rw [ha, hb]

theorem keeps_checkIn (env : Env) (code : String) (v : Vehicle) (d : String) (w : World)
    (hd : v.deviceID = some d) (hw : StoreInv w.rows w.nextId)
    (hwin : ∀ e ∈ w.rows, e.isInside = true → e.plate_number = d →
      e ∈ recentRows 100 w.rows) :
    StoreInv (checkIn env code v w).world.rows (checkIn env code v w).world.nextId := by
  unfold GpsGate.checkIn
  cases hf : env.fails w.calls with
  | true =>
    have hrun := getLastRecentEntries_fail env 100 w hf
    rw [bind_none _ _ w (by rw [hrun]), hrun]
    exact hw
  | false =>
    have hrun := getLastRecentEntries_ok env 100 w hf
    rw [bind_some _ _ w (recentRows 100 w.rows) (by rw [hrun]), hrun]
    simp only
    generalize hfind : List.find?
      (fun e => some e.plate_number == v.deviceID && e.station == code && e.isInside)
      (recentRows 100 w.rows) = found
    cases found with
    | some _ => exact hw
    | none =>
      simp only
      rw [bind_some _ _ _ (env.clock w.ticks) rfl]
      simp only [GpsGate.newDate]
      have hnone := List.find?_eq_none.mp hfind
      have hnew : ∀ a ∈ w.rows, a.isInside = true → a.plate_number = d → a.station = code →
          False := by
        intro a ha hao hp hs
        have := hnone a (hwin a ha hao hp)
        simp [hd, hp, hs, hao] at this
      cases hf2 : env.fails (w.calls + 1) with
      | true =>
        have hins : insertEntry env
            { plate_number := v.deviceID.getD "", station := code,
              in_time := env.clock w.ticks, out_time := none, isInside := true }
            { w with calls := w.calls + 1, ticks := w.ticks + 1 } = _ :=
          storeCall_fail env _ _ _ hf2
        rw [bind_none _ _ _ (by rw [hins]), hins]
        exact hw
      | false =>
        have hins := insertEntry_ok env
          { plate_number := v.deviceID.getD "", station := code, in_time := env.clock w.ticks,
            out_time := none, isInside := true }
          { w with calls := w.calls + 1, ticks := w.ticks + 1 } hf2
        rw [bind_some _ _ _ true (by rw [hins]), hins]
        have hk : Keeps StoreInv (emitVehicleEntries (recentRows 100 w.rows)
            [{ plate_number := v.deviceID.getD "", station := code,
               in_time := env.clock w.ticks, out_time := none, isInside := true }] >>=
            fun _ => captureVehicle env (v.deviceID.getD "") env.rtsp_cam_in true) :=
          keeps_bind (keeps_emitVehicleEntries _ _ _) fun _ => keeps_captureVehicle _ env _ _ _
        refine hk _ (storeInv_insert hw _ ?_)
        intro a ha hao hp hs
        exact hnew a ha hao (by rw [hp, hd]; rfl) hs

theorem keeps_bind_at {α β : Type} {Q : List Entry → Nat → Prop} (m : M α) (f : α → M β)
    (w : World) (hm : Q (m w).world.rows (m w).world.nextId) (hf : ∀ a, Keeps Q (f a)) :
    Q ((m >>= f) w).world.rows ((m >>= f) w).world.nextId := by
  cases hv : (m w).value with
  | none => rw [bind_none m f w hv]; exact hm
  | some a => rw [bind_some m f w a hv]; exact hf a _ hm

theorem keeps_processVehicleAtStation (env : Env) (v : Vehicle) (d : String) (st : Station)
    (entries : List Entry) (w : World) (hd : v.deviceID = some d)
    (hw : StoreInv w.rows w.nextId)
    (hwin : ∀ e ∈ w.rows, e.isInside = true → e.plate_number = d →
      e ∈ recentRows 100 w.rows) :
    StoreInv (processVehicleAtStation env v st entries w).world.rows
      (processVehicleAtStation env v st entries w).world.nextId := by
  unfold GpsGate.processVehicleAtStation
  refine keeps_bind_at _ _ w ?_ fun _ => ?_
  · split
    · exact keeps_checkIn env _ v d w hd hw hwin
    · split
      · exact keeps_checkOut env _ v w hw
      · exact hw
  · refine keeps_bind (keeps_newDate _ env) fun now => keeps_bind (fun _ h => h) fun last => ?_
    split
    · exact keeps_bind (keeps_newDate _ env) fun _ => keeps_bind (fun _ h => h) fun _ =>
        keeps_entriesCleanup env
    · exact keeps_pure _ _

theorem isValidVehicle_deviceID (v : Vehicle) (h : isValidVehicle (some v) = true) :
    ∃ d, v.deviceID = some d := by
  cases hd : v.deviceID with
  | none => simp [isValidVehicle, truthy, hd] at h
  | some d => exact ⟨d, rfl⟩

theorem keeps_checkVehicle (env : Env) (vehicle : Option Vehicle) (w : World)
    (hw : StoreInv w.rows w.nextId)
    (hwin : ∀ e ∈ w.rows, e.isInside = true →
      some e.plate_number = vehicle.bind (·.deviceID) → e ∈ recentRows 100 w.rows) :
    StoreInv (checkVehicle env vehicle w).world.rows (checkVehicle env vehicle w).world.nextId := by
  cases hvalid : isValidVehicle vehicle with
  | false => rw [checkVehicle_invalid env w vehicle hvalid]; exact hw
  | true =>
    cases vehicle with
    | none => simp [isValidVehicle] at hvalid
    | some v =>
      obtain ⟨d, hd⟩ := isValidVehicle_deviceID v hvalid
      have hwin' : ∀ e ∈ w.rows, e.isInside = true → e.plate_number = d →
          e ∈ recentRows 100 w.rows := by
        intro e he ho hp
        exact hwin e he ho (by simp [hd, hp])
      obtain ⟨he1, he2, _⟩ := emitVehicleUpdate_run (createVehicleUpdate v) w
      unfold GpsGate.checkVehicle
      simp only [hvalid, Bool.not_true, Bool.false_eq_true, if_false]
      rw [bind_some _ _ w () he1, he2]
      simp only
      cases hf : env.fails w.calls with
      | true =>
        have hrun := getLastRecentEntries_fail env 100 w hf
        rw [bind_none _ _ w (by rw [hrun]), hrun]
        exact hw
      | false =>
        have hrun := getLastRecentEntries_ok env 100 w hf
        rw [bind_some _ _ w (recentRows 100 w.rows) (by rw [hrun]), hrun]
        simp only [sgn_stations, forStations]
        exact keeps_bind_at _ _ _
          (keeps_processVehicleAtStation env v d stationSGN _ { w with calls := w.calls + 1 }
            hd hw hwin')
          fun _ => keeps_pure _ _

/-- C4 (as the code behaves): for every store state with unique ids and at most one
open Entry per (plate_number, station), and every sample such that every open entry of
the sample's vehicle is among the 100 highest-id entries that `getLastRecentEntries`
returns (in particular whenever the store holds at most 100 entries), the store still
has unique ids and at most one open Entry per (plate_number, station) after
`checkVehicle` has processed the sample, whichever store calls fail. -/
theorem checkVehicle_keeps_one_open (env : Env) (w : World) (vehicle : Option Vehicle)
    (hids : UniqueIds w.rows w.nextId) (hinv : AtMostOneOpen w.rows)
    (hwin : ∀ e ∈ w.rows, e.isInside = true →
      some e.plate_number = vehicle.bind (·.deviceID) → e ∈ recentRows 100 w.rows) :
    UniqueIds (checkVehicle env vehicle w).world.rows (checkVehicle env vehicle w).world.nextId ∧
      AtMostOneOpen (checkVehicle env vehicle w).world.rows := by
  have h := keeps_checkVehicle env vehicle w ⟨hids, oneOpen_of_atMost hinv⟩ hwin
  exact ⟨h.1, oneOpen_atMost h.1 h.2⟩

/-- C4 (the claim fails): the store holds an open entry of SGN-32001 at SGN with id 1
and one hundred later entries, so the reads of `checkVehicle` and `checkIn` (the 100
highest ids) miss it.  An accepted sample of SGN-32001 50 m from the station is checked
in again, and the store then holds two open entries for (SGN-32001, SGN). -/
theorem checkVehicle_second_open_entry :
    UniqueIds (worldRecent openBeyondWindow).rows (worldRecent openBeyondWindow).nextId ∧
      AtMostOneOpen (worldRecent openBeyondWindow).rows ∧
      ¬ AtMostOneOpen
        (checkVehicle (envSteady 50) (some sampleVehicle) (worldRecent openBeyondWindow)).world.rows := by
  have hu : UniqueIds (worldRecent openBeyondWindow).rows (worldRecent openBeyondWindow).nextId :=
    ⟨by decide!, by decide!⟩
  refine ⟨hu, oneOpen_atMost hu (by unfold OneOpen; decide!), ?_⟩
  intro h
  exact absurd (h "SGN-32001" "SGN") (by decide!)

/-! ### Instances -/

/-- An instance of C1: a sample whose latitude begins with '0'. -/
theorem checkVehicle_rejected_witness :
    rejectedSample (some noFixVehicle) ∧
      checkVehicle envOk (some noFixVehicle) (worldOf []) = ⟨some (), worldOf [], []⟩ :=
  ⟨Or.inr (Or.inl (Or.inr (Or.inr (Or.inr ⟨"0.000000", rfl, by decide⟩)))),
    checkVehicle_rejected envOk (worldOf []) (some noFixVehicle)
      (Or.inl (Or.inr (Or.inl (Or.inr (Or.inr (Or.inr ⟨"0.000000", rfl, by decide⟩))))))⟩

/-- An instance of C3: the sample is 100 m away, entry 3 is open and the
last reconciliation pass is one second old. -/
theorem checkVehicle_checkOut_witness :
    (checkVehicle (envSteady 100) (some sampleVehicle)
        (worldRecent openAndMergeable)).log.filter Effect.isStoreWrite =
        [.updateEntry ⟨3, "SGN-32001", "SGN", 0, some 1000000, false⟩] ∧
      (checkVehicle (envSteady 100) (some sampleVehicle)
        (worldRecent openAndMergeable)).world.rows =
        (worldRecent openAndMergeable).rows.map fun r =>
          if r.id = 3 then ⟨3, "SGN-32001", "SGN", 0, some 1000000, false⟩ else r :=
  checkVehicle_checkOut (envSteady 100) (worldRecent openAndMergeable) sampleVehicle
    ⟨3, "SGN-32001", "SGN", 0, none, true⟩ 999000 (fun _ => rfl) (by decide) (by decide)
    (by decide) rfl rfl
    (fun _ => (by decide : (1000000 : Int) - 999000 ≤ CLEANUP_INTERVAL_MS))

/-- An instance of C4: three entries, one of them open, and a
sample 70 m from the station. -/
theorem checkVehicle_keeps_one_open_witness :
    UniqueIds (checkVehicle (envAt 70) (some sampleVehicle) (worldOf openAndMergeable)).world.rows
        (checkVehicle (envAt 70) (some sampleVehicle) (worldOf openAndMergeable)).world.nextId ∧
      AtMostOneOpen
        (checkVehicle (envAt 70) (some sampleVehicle) (worldOf openAndMergeable)).world.rows :=
  checkVehicle_keeps_one_open (envAt 70) (worldOf openAndMergeable) (some sampleVehicle)
    ⟨by decide, by decide⟩
    (oneOpen_atMost (n := 4) ⟨by decide, by decide⟩ (by unfold OneOpen; decide))
    (by decide)

/-- An instance of C5: entry 2 of `twoVehicles` is one minute after
entry 1, which survives, so entry 2 is deleted. -/
theorem entriesCleanup_duplicates_witness :
    Effect.deleteEntry 2 ∈ (entriesCleanup envOk (worldOf twoVehicles)).log ∧
      ∀ x ∈ (entriesCleanup envOk (worldOf twoVehicles)).world.rows, x.id ≠ 2 :=
  (entriesCleanup_duplicates envOk (worldOf twoVehicles) (fun _ => rfl)
      ⟨by decide, by decide⟩).1
    ⟨1, "SGN-32001", "SGN", 0, none, true⟩ (by decide)
    ⟨2, "SGN-32001", "SGN", 60000, none, true⟩ (by decide) rfl (by decide) (by decide)
    (by decide) (by decide)

/-- An instance of C6: A = (0, 10 min), B = (12 min, 20 min). -/
theorem entriesCleanup_merge_witness :
    (entriesCleanup envOk (worldOf [mergePrev, mergeCurDone])).value = some () ∧
      (entriesCleanup envOk (worldOf [mergePrev, mergeCurDone])).log =
        [.getLastRecentEntries 100,
          .updateEntry { mergePrev with out_time := some 1200000 }, .deleteEntry 2] ∧
      (entriesCleanup envOk (worldOf [mergePrev, mergeCurDone])).world.rows =
        [{ mergePrev with out_time := some 1200000 }] :=
  entriesCleanup_merge envOk (worldOf [mergePrev, mergeCurDone]) (fun _ => rfl)
    ⟨by decide, by decide⟩ mergePrev mergeCurDone 600000 1200000 (Or.inl rfl) rfl rfl rfl
    (by decide) (by decide) (by decide)

/-- An instance of C7: a one-minute stay, the first and only entry
of its vehicle. -/
theorem entriesCleanup_short_stay_witness :
    (entriesCleanup envOk (worldOf [shortStay])).value = some () ∧
      Effect.deleteEntry 1 ∈ (entriesCleanup envOk (worldOf [shortStay])).log ∧
      ∀ x ∈ (entriesCleanup envOk (worldOf [shortStay])).world.rows, x.id ≠ 1 :=
  entriesCleanup_short_stay envOk (worldOf [shortStay]) (fun _ => rfl) shortStay 60000
    (by decide) rfl (by decide)

/-! ### C12: a capture request for a plate that is recording -/

/-- C12: for every plate that already has an ActiveRecording, a capture request for
that plate returns normally with the world unchanged (the active-recording table
included, so the existing recording is not replaced) and logs only the request itself:
no process is spawned and no error is raised. -/
theorem captureVehicle_already_recording (env : Env) (w : World) (plateNumber rtspUrl : String)
    (checkIn : Bool) (h : plateNumber ∈ w.activeRecordings) :
    captureVehicle env plateNumber rtspUrl checkIn w =
      ⟨some (), w, [.captureVehicle plateNumber rtspUrl checkIn]⟩ := by
  unfold GpsGate.captureVehicle
  rw [bind_some _ _ w () rfl]
  simp only [isFirstStart, Bool.false_eq_true, if_false]
  rw [bind_some _ _ _ (decide (plateNumber ∈ w.activeRecordings)) rfl]
  simp [h, logEffect, hasRecording, pure_run]

/-- An instance of C12: SGN-32001 is recording when a second request arrives. -/
theorem captureVehicle_already_recording_witness :
    captureVehicle envOk "SGN-32001" "rtsp://out" false
        { worldOf [] with activeRecordings := ["SGN-32001"] } =
      ⟨some (), { worldOf [] with activeRecordings := ["SGN-32001"] },
        [.captureVehicle "SGN-32001" "rtsp://out" false]⟩ :=
  captureVehicle_already_recording envOk { worldOf [] with activeRecordings := ["SGN-32001"] }
    "SGN-32001" "rtsp://out" false (by decide)

/-! ### C13: a capture request without a downstream server -/

theorem captureVehicle_no_downstream (env : Env) (w : World) (plateNumber rtspUrl : String)
    (checkIn : Bool) (hd : w.downstream = false) (hrec : plateNumber ∉ w.activeRecordings) :
    captureVehicle env plateNumber rtspUrl checkIn w =
      ⟨none, w, [.captureVehicle plateNumber rtspUrl checkIn]⟩ := by
  unfold GpsGate.captureVehicle
  rw [bind_some _ _ w () rfl]
  simp only [isFirstStart, Bool.false_eq_true, if_false]
  rw [bind_some _ _ _ (decide (plateNumber ∈ w.activeRecordings)) rfl]
  simp only [hrec, decide_False, Bool.false_eq_true, if_false, logEffect, hasRecording]
  rw [bind_none _ _ w (by simp [getDownstreamSocket, hd])]
  simp [getDownstreamSocket, hd]

theorem emitVehicleEntries_off (es : List Entry) (ns : List NewEntry) (w : World)
    (hd : w.downstream = false) : emitVehicleEntries es ns w = ⟨some (), w, []⟩ := by
  simp [emitVehicleEntries, hd]

theorem emit_then_capture (env : Env) (es : List Entry) (ns : List NewEntry)
    (plateNumber rtspUrl : String) (checkIn : Bool) (w : World) (hd : w.downstream = false)
    (hrec : plateNumber ∉ w.activeRecordings) :
    (emitVehicleEntries es ns >>= fun _ => captureVehicle env plateNumber rtspUrl checkIn) w =
      ⟨none, w, [.captureVehicle plateNumber rtspUrl checkIn]⟩ := by
  rw [bind_some _ _ w () (by rw [emitVehicleEntries_off _ _ _ hd]),
    emitVehicleEntries_off _ _ _ hd]
  simp only [captureVehicle_no_downstream env w plateNumber rtspUrl checkIn hd hrec]
  rfl

theorem checkIn_no_downstream (env : Env) (hok : NoFail env) (w : World) (code : String)
    (v : Vehicle) (plate : String) (hd : w.downstream = false)
    (hrec : plate ∉ w.activeRecordings) (hv : v.deviceID = some plate)
    (hfind : (recentRows 100 w.rows).find? (fun e =>
      some e.plate_number == v.deviceID && e.station == code && e.isInside) = none) :
    (checkIn env code v w).value = none ∧
      (checkIn env code v w).log =
        [.getLastRecentEntries 100,
         .insertEntry ⟨plate, code, env.clock w.ticks, none, true⟩,
         .captureVehicle plate env.rtsp_cam_in true] := by
  have hrun := getLastRecentEntries_ok env 100 w (hok _)
  unfold GpsGate.checkIn
  rw [bind_some _ _ w (recentRows 100 w.rows) (by rw [hrun]), hrun]
  simp only [hfind]
  rw [bind_some _ _ _ (env.clock w.ticks) rfl]
  simp only [GpsGate.newDate]
  have hins := insertEntry_ok env
    { plate_number := v.deviceID.getD "", station := code, in_time := env.clock w.ticks,
      out_time := none, isInside := true }
    { w with calls := w.calls + 1, ticks := w.ticks + 1 } (hok _)
  rw [bind_some _ _ _ true (by rw [hins]), hins]
  simp only [hv, Option.getD_some]
  rw [emit_then_capture]
  · exact ⟨rfl, rfl⟩
  · exact hd
  · exact hrec

theorem checkOut_no_downstream (env : Env) (hok : NoFail env) (w : World) (code : String)
    (v : Vehicle) (plate : String) (entry : Entry) (hd : w.downstream = false)
    (hrec : plate ∉ w.activeRecordings) (hv : v.deviceID = some plate)
    (hfind : findVehicleEntry (recentRows 100 w.rows) v.deviceID code = some entry) :
    (checkOut env code v w).value = none ∧
      (checkOut env code v w).log =
        [.getLastRecentEntries 100,
         .updateEntry { entry with out_time := some (env.clock w.ticks), isInside := false },
         .captureVehicle plate env.rtsp_cam_out false] := by
  have hrun := getLastRecentEntries_ok env 100 w (hok _)
  unfold GpsGate.checkOut
  rw [bind_some _ _ w (recentRows 100 w.rows) (by rw [hrun]), hrun]
  simp only [checkOut_find, hfind]
  rw [bind_some _ _ _ (env.clock w.ticks) rfl]
  simp only [GpsGate.newDate]
  have hup := updateEntry_ok env
    { entry with out_time := some (env.clock w.ticks), isInside := false }
    { w with calls := w.calls + 1, ticks := w.ticks + 1 } (hok _)
  rw [bind_some _ _ _ true (by rw [hup]), hup]
  simp only [hv, Option.getD_some]
  rw [emit_then_capture]
  · exact ⟨rfl, rfl⟩
  · exact hd
  · exact hrec

/-- C13 (as the code behaves): when the downstream server is not initialised and the
plate is not already recording, a capture request spawns no process and adds no
ActiveRecording (the world is unchanged and only the request is logged), but it does
not return normally: `getDownstreamSocket` throws and `captureVehicle` throws with it.
The check-in or check-out that requested it then throws too, after its store write:
with no failing store call, a check-in that finds no open entry logs its read, its
insert and the request and throws, and a check-out of a found entry logs its read, its
update and the request and throws. -/
theorem captureVehicle_without_downstream (env : Env) (w : World) (plateNumber rtspUrl : String)
    (checkIn : Bool) (hd : w.downstream = false) (hrec : plateNumber ∉ w.activeRecordings) :
    captureVehicle env plateNumber rtspUrl checkIn w =
        ⟨none, w, [.captureVehicle plateNumber rtspUrl checkIn]⟩ ∧
      (∀ (code : String) (v : Vehicle), NoFail env → v.deviceID = some plateNumber →
        (recentRows 100 w.rows).find? (fun e =>
          some e.plate_number == v.deviceID && e.station == code && e.isInside) = none →
        (GpsGate.checkIn env code v w).value = none ∧
        (GpsGate.checkIn env code v w).log =
          [.getLastRecentEntries 100,
           .insertEntry ⟨plateNumber, code, env.clock w.ticks, none, true⟩,
           .captureVehicle plateNumber env.rtsp_cam_in true]) ∧
      (∀ (code : String) (v : Vehicle) (entry : Entry), NoFail env →
        v.deviceID = some plateNumber →
        findVehicleEntry (recentRows 100 w.rows) v.deviceID code = some entry →
        (checkOut env code v w).value = none ∧
        (checkOut env code v w).log =
          [.getLastRecentEntries 100,
           .updateEntry { entry with out_time := some (env.clock w.ticks), isInside := false },
           .captureVehicle plateNumber env.rtsp_cam_out false]) :=
  ⟨captureVehicle_no_downstream env w plateNumber rtspUrl checkIn hd hrec,
    fun code v hok hv hfind => checkIn_no_downstream env hok w code v plateNumber hd hrec hv hfind,
    fun code v entry hok hv hfind =>
      checkOut_no_downstream env hok w code v plateNumber entry hd hrec hv hfind⟩

/-- An instance of C13: a request for SGN-32001 before the downstream server is
initialised. -/
theorem captureVehicle_without_downstream_witness :
    captureVehicle envOk "SGN-32001" "rtsp://in" true worldNoDownstream =
      ⟨none, worldNoDownstream, [.captureVehicle "SGN-32001" "rtsp://in" true]⟩ :=
  (captureVehicle_without_downstream envOk worldNoDownstream "SGN-32001" "rtsp://in" true rfl
    (by decide)).1

/-- C13 (the claim fails): the downstream server is not initialised and SGN-32001 is
not recording.  `captureVehicle` does not return normally: it throws (from
`getDownstreamSocket`), having spawned nothing and recorded nothing; and `checkVehicle`
for an accepted sample 50 m from the station throws too, after the check-in has
inserted its entry. -/
theorem captureVehicle_throws_without_downstream :
    (captureVehicle envOk "SGN-32001" "rtsp://in" true worldNoDownstream).value = none ∧
      (captureVehicle envOk "SGN-32001" "rtsp://in" true worldNoDownstream).world =
        worldNoDownstream ∧
      (captureVehicle envOk "SGN-32001" "rtsp://in" true worldNoDownstream).log =
        [.captureVehicle "SGN-32001" "rtsp://in" true] ∧
      (checkVehicle envOk (some sampleVehicle) worldNoDownstream).value = none ∧
      (checkVehicle envOk (some sampleVehicle) worldNoDownstream).log =
        [.getLastRecentEntries 100, .getLastRecentEntries 100,
         .insertEntry ⟨"SGN-32001", "SGN", 1000000, none, true⟩,
         .captureVehicle "SGN-32001" "rtsp://in" true] := by
  decide

/-! ### C15: a merge followed by another session -/

/-- C15 (the code at a failing input): A = (0, 10 min), B = (12 min, 20 min) and
C = (22 min, 30 min) of one vehicle.  B is merged into A in the store, but the scan
compares C with the local A, whose out_time is still 10 min, so C is kept: the store
is left with A = (0, 20 min) and C, not with one entry spanning 0 to 30 min. -/
theorem entriesCleanup_stale_previous :
    (entriesCleanup envOk (worldOf [mergePrev, mergeCurDone, mergeThird])).log =
        [.getLastRecentEntries 100, .updateEntry { mergePrev with out_time := some 1200000 },
         .deleteEntry 2] ∧
      (entriesCleanup envOk (worldOf [mergePrev, mergeCurDone, mergeThird])).world.rows =
        [{ mergePrev with out_time := some 1200000 }, mergeThird] := by
  decide

/-! ### C17 and C11: what the demuxer leaves and emits -/

theorem occursAt_iff (value buffer : List Nat) (i : Nat) :
    occursAt value buffer i ↔ occursAtHead value (buffer.drop i) = true := by
  simp [occursAt, occursAtHead]

theorem searchFrom_of_occurs {value : List Nat} (hv : value ≠ []) :
    ∀ (l : List Nat) (i j : Nat), occursAtHead value (l.drop j) = true →
      ∃ k : Nat, searchFrom value l i = ((i + k : Nat) : Int) ∧ k ≤ j ∧
        occursAtHead value (l.drop k) = true ∧
        ∀ m, m < k → occursAtHead value (l.drop m) = false := by
  intro l
  induction l with
  | nil =>
    intro i j h
    simp [occursAtHead] at h
    exact absurd h hv
  | cons b bs ih =>
    intro i j h
    by_cases hh : occursAtHead value (b :: bs) = true
    · refine ⟨0, ?_, Nat.zero_le _, hh, fun m hm => absurd hm (Nat.not_lt_zero _)⟩
      simp [searchFrom, hh]
    · cases j with
      | zero => exact absurd h hh
      | succ j =>
        obtain ⟨k, hk, hkj, hocc, hfirst⟩ := ih (i + 1) j h
        refine ⟨k + 1, ?_, by omega, hocc, ?_⟩
        · simp only [searchFrom, hh]
          rw [hk]
          simp only [Bool.false_eq_true, if_false]
          congr 1
          omega
        · intro m hm
          cases m with
          | zero => simpa using hh
          | succ m => exact hfirst m (by omega)

theorem searchFrom_sound {value : List Nat} (hv : value ≠ []) :
    ∀ (l : List Nat) (i : Nat), searchFrom value l i ≠ -1 →
      ∃ k : Nat, searchFrom value l i = ((i + k : Nat) : Int) ∧
        occursAtHead value (l.drop k) = true := by
  intro l
  induction l with
  | nil => intro i h; simp [searchFrom, hv] at h
  | cons b bs ih =>
    intro i h
    by_cases hh : occursAtHead value (b :: bs) = true
    · exact ⟨0, by simp [searchFrom, hh], hh⟩
    · simp only [searchFrom, hh] at h ⊢
      obtain ⟨k, hk, hocc⟩ := ih (i + 1) h
      refine ⟨k + 1, ?_, hocc⟩
      rw [hk]
      simp only [Bool.false_eq_true, if_false]
      congr 1
      omega

theorem indexOf_of_occurs {value : List Nat} (hv : value ≠ []) (buffer : List Nat) (off : Int)
    (hoff : 0 ≤ off) (j : Nat) (hj : off.toNat ≤ j) (h : occursAt value buffer j) :
    ∃ k : Nat, indexOf buffer value off = (k : Int) ∧ off.toNat ≤ k ∧ k ≤ j ∧
      occursAt value buffer k ∧ ∀ m, off.toNat ≤ m → m < k → ¬ occursAt value buffer m := by
  have hd : ∀ m, (buffer.drop off.toNat).drop m = buffer.drop (off.toNat + m) := fun m =>
    List.drop_drop m off.toNat buffer
  have h' : occursAtHead value ((buffer.drop off.toNat).drop (j - off.toNat)) = true := by
    rw [hd, ← occursAt_iff]
    have : off.toNat + (j - off.toNat) = j := by omega
    rw [this]; exact h
  obtain ⟨k, hk, hkj, hocc, hfirst⟩ := searchFrom_of_occurs hv _ off.toNat _ h'
  refine ⟨off.toNat + k, ?_, by omega, by omega, ?_, ?_⟩
  · simp only [indexOf, not_lt.mpr hoff, if_false]
    exact hk
  · rw [occursAt_iff, ← hd]; exact hocc
  · intro m hm1 hm2 hm3
    have := hfirst (m - off.toNat) (by omega)
    rw [hd] at this
    have e : off.toNat + (m - off.toNat) = m := by omega
    rw [e, ← Bool.not_eq_true, ← occursAt_iff] at this
    exact this hm3

theorem indexOf_sound {value : List Nat} (hv : value ≠ []) (buffer : List Nat) (off : Int)
    (hoff : 0 ≤ off) (h : indexOf buffer value off ≠ -1) :
    ∃ k : Nat, indexOf buffer value off = (k : Int) ∧ off.toNat ≤ k ∧
      occursAt value buffer k := by
  simp only [indexOf, not_lt.mpr hoff, if_false] at h ⊢
  obtain ⟨k, hk, hocc⟩ := searchFrom_sound hv _ _ h
  refine ⟨off.toNat + k, hk, by omega, ?_⟩
  rw [occursAt_iff, ← List.drop_drop]
  exact hocc

theorem nextFrame_drained (buffer : List Nat) : nextFrame (drain buffer).2 = none := by
  have h := drain_idem buffer.length buffer (le_refl _)
  rw [drain_eq (drain buffer).2] at h
  cases hf : nextFrame (drain buffer).2 with
  | none => rfl
  | some p =>
    rw [hf] at h
    simp at h

/-- When no frame is cut there is no FF D8 followed by an FF D9 two or more bytes on. -/
theorem no_frame_of_nextFrame_none (buffer : List Nat) (h : nextFrame buffer = none) (i j : Nat)
    (hi : occursAt SOI buffer i) (hij : i + 2 ≤ j) : ¬ occursAt EOI buffer j := by
  intro hj
  obtain ⟨s, hs, _, hsi, _, _⟩ :=
    indexOf_of_occurs (by decide : SOI ≠ []) buffer 0 (le_refl _) i (by simp) hi
  obtain ⟨e, he, _, _, _, _⟩ :=
    indexOf_of_occurs (by decide : EOI ≠ []) buffer ((s : Int) + 2) (by omega) j (by omega) hj
  unfold nextFrame at h
  rw [hs, he] at h
  rw [if_pos ⟨by omega, by omega⟩] at h
  simp at h

/-- C17: after the data handler has processed any sequence of chunks, starting from
the empty buffer, the retained buffer holds no complete frame: no FF D8 marker at an
offset `i` is followed by an FF D9 marker at an offset `j` with `j >= i + 2`. -/
theorem retained_buffer_has_no_frame (chunks : List (List Nat)) (i j : Nat)
    (hi : occursAt SOI (feed [] chunks).2 i) (hij : i + 2 ≤ j) :
    ¬ occursAt EOI (feed [] chunks).2 j := by
  have h0 : drain [] = ([], []) := rfl
  have hfeed := feed_eq_drain chunks [] h0
  rw [hfeed] at hi ⊢
  exact no_frame_of_nextFrame_none _ (nextFrame_drained _) i j hi hij

/-- An instance of C17: a chunk holding a marker FF D8 and no FF D9 after it. -/
theorem retained_buffer_has_no_frame_witness :
    ¬ occursAt EOI (feed [] [[0xff, 0xd8, 1, 2, 3]]).2 2 :=
  retained_buffer_has_no_frame [[0xff, 0xd8, 1, 2, 3]] 0 2 (by unfold occursAt; decide)
    (by decide)

theorem occursAt_append_left (value buffer rest : List Nat) (k : Nat)
    (h : k + value.length ≤ buffer.length) :
    occursAt value (buffer ++ rest) k ↔ occursAt value buffer k := by
  unfold occursAt
  rw [List.drop_append_of_le_length (by omega),
    List.take_append_of_le_length (by rw [List.length_drop]; omega)]

theorem isFrame_length {frame : List Nat} (h : IsFrame frame) : 4 ≤ frame.length := by
  obtain ⟨h1, h2, h3, _⟩ := h
  match frame, h1, h2, h3 with
  | [a, b], h1, _, h3 =>
    simp [occursAt, SOI, EOI] at h1 h3
    omega
  | [a, b, c], h1, _, h3 =>
    simp [occursAt, SOI, EOI] at h1 h3
    omega
  | _ :: _ :: _ :: _ :: _, _, _, _ => simp

theorem indexOf_SOI_zero (buffer : List Nat) (h : occursAt SOI buffer 0) :
    indexOf buffer SOI 0 = 0 := by
  obtain ⟨k, hk, _, hk0, _, _⟩ :=
    indexOf_of_occurs (by decide : SOI ≠ []) buffer 0 (le_refl _) 0 (by simp) h
  have : k = 0 := by omega
  rw [hk, this]
  rfl

/-- A complete frame at the head of the buffer is the frame the loop cuts next. -/
theorem nextFrame_of_frame {frame : List Nat} (h : IsFrame frame) (rest : List Nat) :
    nextFrame (frame ++ rest) = some (frame, rest) := by
  have hlen := isFrame_length h
  obtain ⟨h1, _, h3, h4⟩ := h
  have hSOI : SOI.length = 2 := rfl
  have hEOI : EOI.length = 2 := rfl
  have hs : indexOf (frame ++ rest) SOI 0 = 0 :=
    indexOf_SOI_zero _ ((occursAt_append_left SOI frame rest 0 (by omega)).mpr h1)
  have hend : occursAt EOI (frame ++ rest) (frame.length - 2) :=
    (occursAt_append_left EOI frame rest _ (by omega)).mpr h3
  obtain ⟨k, hk, hk2, hkl, hocc, _⟩ :=
    indexOf_of_occurs (by decide : EOI ≠ []) (frame ++ rest) ((0 : Int) + 2) (by omega)
      (frame.length - 2) (by simp only [zero_add, Int.toNat_ofNat]; omega) hend
  have hk2' : 2 ≤ k := by simpa using hk2
  have hkeq : k = frame.length - 2 := by
    by_contra hne
    have hlt : k < frame.length - 2 := by omega
    exact h4 k hk2' hlt ((occursAt_append_left EOI frame rest k (by omega)).mp hocc)
  unfold nextFrame
  rw [hs, hk, if_pos ⟨by omega, by omega⟩]
  have e1 : ((k : Int) + 2).toNat = frame.length := by omega
  simp only [subarray, e1, Int.toNat_zero, Nat.sub_zero, List.drop_zero,
    List.take_left', List.drop_left']

theorem nextFrame_of_partial {tail : List Nat} (h : IsPartialFrame tail) :
    nextFrame tail = none := by
  obtain ⟨h1, h2⟩ := h
  have hs := indexOf_SOI_zero tail h1
  unfold nextFrame
  rw [hs, if_neg]
  intro hc
  obtain ⟨k, _, hk2, hocc⟩ :=
    indexOf_sound (by decide : EOI ≠ []) tail ((0 : Int) + 2) (by omega) hc.2
  exact h2 k (by simpa using hk2) hocc

/-- C11: for all byte sequences F1, F2 and P, where F1 and F2 are complete frames and P
is a partial frame, and every way of splitting F1 ++ F2 ++ P into chunks, feeding the
chunks to the data handler from an empty buffer emits exactly the frames [F1, F2], in
that order and byte-identical, and leaves exactly P in the retained buffer. -/
theorem feed_two_frames_and_tail (F1 F2 P : List Nat) (chunks : List (List Nat))
    (h1 : IsFrame F1) (h2 : IsFrame F2) (hP : IsPartialFrame P)
    (hsplit : chunks.flatten = F1 ++ F2 ++ P) :
    feed [] chunks = ([F1, F2], P) := by
  have h0 : drain [] = ([], []) := rfl
  rw [feed_eq_drain chunks [] h0, List.nil_append, hsplit, List.append_assoc,
    drain_eq, nextFrame_of_frame h1]
  simp only
  rw [drain_eq, nextFrame_of_frame h2]
  simp only
  rw [drain_eq, nextFrame_of_partial hP]

/-- An instance of C11: two four-byte frames and a three-byte tail, split into three
chunks inside the first frame, inside the second and inside the tail. -/
theorem feed_two_frames_and_tail_witness :
    feed [] [[0xff, 0xd8, 0xff], [0xd9, 0xff, 0xd8, 7], [0xff, 0xd9, 0xff, 0xd8], [9]] =
      ([[0xff, 0xd8, 0xff, 0xd9], [0xff, 0xd8, 7, 0xff, 0xd9]], [0xff, 0xd8, 9]) :=
  feed_two_frames_and_tail [0xff, 0xd8, 0xff, 0xd9] [0xff, 0xd8, 7, 0xff, 0xd9] [0xff, 0xd8, 9]
    [[0xff, 0xd8, 0xff], [0xd9, 0xff, 0xd8, 7], [0xff, 0xd9, 0xff, 0xd8], [9]]
    (by unfold IsFrame occursAt; decide) (by unfold IsFrame occursAt; decide)
    (by
      refine ⟨by unfold occursAt; decide, ?_⟩
      intro k hk hocc
      unfold occursAt at hocc
      have hl := congrArg List.length hocc
      simp only [List.length_take, List.length_drop, EOI, List.length_cons, List.length_nil] at hl
      omega)
    (by decide)

/-! ### C16: the time invariant of the records written -/

theorem logAll_pure {α : Type} (P : Effect → Prop) (a : α) : LogAll P (pure a : M α) := by
  intro w eff h
  simp [pure_run] at h

theorem logAll_bind {α β : Type} {P : Effect → Prop} {m : M α} {f : α → M β}
    (hm : LogAll P m) (hf : ∀ a, LogAll P (f a)) : LogAll P (m >>= f) := by
  intro w eff h
  cases hv : (m w).value with
  | none =>
    rw [bind_none m f w hv] at h
    exact hm w eff h
  | some a =>
    rw [bind_some m f w a hv] at h
    rcases List.mem_append.mp h with h | h
    · exact hm w eff h
    · exact hf a _ eff h

theorem logAll_storeCall {α : Type} {P : Effect → Prop} (env : Env) (eff : Effect)
    (f : World → α × World) (h : P eff) : LogAll P (storeCall env eff f) := by
  intro w e he
  unfold storeCall at he
  split at he <;> simp only [List.mem_singleton] at he <;> rw [he] <;> exact h

theorem rule2_times {prev : Option Entry} {current updated : Entry}
    (h : rule2 prev current = some updated)
    (hprev : ∀ p, prev = some p → GoodTimes p ∧ p.in_time ≤ current.in_time)
    (hcur : GoodTimes current) : GoodTimes updated := by
  cases prev with
  | none => simp [rule2] at h
  | some p =>
    obtain ⟨hp, hle⟩ := hprev p rfl
    simp only [rule2] at h
    split at h
    · exact absurd h (by simp)
    · split at h
      · split at h
        · rename_i out hout
          simp only [Option.some.injEq] at h
          subst h
          intro o ho
          simp only [Option.some.injEq] at ho
          subst ho
          exact le_trans hle (hcur _ hout)
        · split at h
          · simp only [Option.some.injEq] at h; subst h
            intro o ho
            simp at ho
          · simp only [Option.some.injEq] at h; subst h; exact hp
      · exact absurd h (by simp)

theorem logAll_scanLoop (env : Env) :
    ∀ (rest kept : List Entry), (∀ e ∈ kept, GoodTimes e) → (∀ e ∈ rest, GoodTimes e) →
      (∀ k ∈ kept, ∀ r ∈ rest, k.in_time ≤ r.in_time) →
      rest.Pairwise (fun a b => a.in_time ≤ b.in_time) →
      LogAll UpdateKeepsTimes (scanLoop env kept rest) := by
  intro rest
  induction rest with
  | nil => intro kept _ _ _ _; rw [scanLoop]; exact logAll_pure _ _
  | cons current rest ih =>
    intro kept hk hr hle hsorted
    have hr' : ∀ e ∈ rest, GoodTimes e := fun e he => hr e (List.mem_cons_of_mem _ he)
    have hle' : ∀ k ∈ kept, ∀ r ∈ rest, k.in_time ≤ r.in_time :=
      fun k hk r hr => hle k hk r (List.mem_cons_of_mem _ hr)
    rw [List.pairwise_cons] at hsorted
    have hd : LogAll UpdateKeepsTimes (deleteEntry env current.id) :=
      logAll_storeCall env _ _ trivial
    have hgo := ih kept hk hr' hle' hsorted.2
    rw [scanLoop]
    split
    · exact logAll_bind hd fun _ => hgo
    · split
      · rename_i updated hu
        have hgood : GoodTimes updated := rule2_times hu (by
          intro p hp
          have hpk : p ∈ kept := List.mem_of_mem_head? hp
          exact ⟨hk p hpk, hle p hpk current (List.mem_cons_self _ _)⟩)
          (hr current (List.mem_cons_self _ _))
        exact logAll_bind (logAll_storeCall env _ _ hgood) fun _ =>
          logAll_bind hd fun _ => hgo
      · split
        · exact logAll_bind hd fun _ => hgo
        · refine ih (current :: kept) ?_ hr' ?_ hsorted.2
          · intro e he
            rcases List.mem_cons.mp he with rfl | he
            · exact hr _ (List.mem_cons_self _ _)
            · exact hk e he
          · intro k hkm r hrm
            rcases List.mem_cons.mp hkm with rfl | hkm
            · exact hsorted.1 r hrm
            · exact hle' k hkm r hrm

theorem sortByInTime_sorted (es : List Entry) :
    (sortByInTime es).Pairwise (fun a b => a.in_time ≤ b.in_time) := by
  haveI : IsTotal Entry (fun a b => a.in_time ≤ b.in_time) := ⟨fun a b => le_total _ _⟩
  haveI : IsTrans Entry (fun a b => a.in_time ≤ b.in_time) := ⟨fun _ _ _ h1 h2 => le_trans h1 h2⟩
  exact List.sorted_insertionSort _ es

theorem logAll_cleanupGroups (env : Env) :
    ∀ groups : List (String × List Entry), (∀ kv ∈ groups, ∀ e ∈ kv.2, GoodTimes e) →
      LogAll UpdateKeepsTimes (cleanupGroups env groups) := by
  intro groups
  induction groups with
  | nil => intro _; rw [cleanupGroups]; exact logAll_pure _ _
  | cons kv rest ih =>
    intro h
    obtain ⟨k, es⟩ := kv
    rw [cleanupGroups]
    refine logAll_bind (logAll_scanLoop env _ [] (by simp) ?_ (by simp)
      (sortByInTime_sorted es)) fun _ => ih fun kv hkv => h kv (List.mem_cons_of_mem _ hkv)
    intro e he
    exact h (k, es) (List.mem_cons_self _ _) e (mem_sortByInTime.mp he)

/-- C16: reconciliation preserves the Entry time invariant.  If every entry read by
`entriesCleanup` that has an out_time has out_time >= in_time, then every record the
pass writes with `updateEntry` has out_time null or out_time >= its in_time, whichever
store calls fail. -/
theorem entriesCleanup_updates_keep_times (env : Env) (w : World)
    (h : ∀ e ∈ recentRows 100 w.rows, ∀ o, e.out_time = some o → e.in_time ≤ o) (u : Entry)
    (hu : Effect.updateEntry u ∈ (entriesCleanup env w).log) :
    u.out_time = none ∨ ∃ o, u.out_time = some o ∧ u.in_time ≤ o := by
  have hall : ∀ eff ∈ (entriesCleanup env w).log, UpdateKeepsTimes eff := by
    unfold entriesCleanup
    cases hf : env.fails w.calls with
    | true =>
      have hrun := getLastRecentEntries_fail env 100 w hf
      rw [bind_none _ _ w (by rw [hrun]), hrun]
      intro eff he
      simp only [List.mem_singleton] at he
      rw [he]; trivial
    | false =>
      have hrun := getLastRecentEntries_ok env 100 w hf
      rw [bind_some _ _ w (recentRows 100 w.rows) (by rw [hrun]), hrun]
      intro eff he
      rcases List.mem_append.mp he with he | he
      · simp only [List.mem_singleton] at he
        rw [he]; trivial
      · refine logAll_cleanupGroups env _ ?_ _ eff he
        intro kv hkv e hmem
        exact h e (groupByPlate_members _ kv.1 kv.2 hkv e hmem).1
  have hgood : GoodTimes u := hall _ hu
  cases ho : u.out_time with
  | none => exact Or.inl rfl
  | some o => exact Or.inr ⟨o, rfl, hgood o ho⟩

/-- An instance of C16: the merge of B = (12 min, 20 min) into A = (0, 10 min) writes A
with out_time 20 min. -/
theorem entriesCleanup_updates_keep_times_witness :
    ({ mergePrev with out_time := some 1200000 } : Entry).out_time = none ∨
      ∃ o, ({ mergePrev with out_time := some 1200000 } : Entry).out_time = some o ∧
        ({ mergePrev with out_time := some 1200000 } : Entry).in_time ≤ o :=
  entriesCleanup_updates_keep_times envOk (worldOf [mergePrev, mergeCurDone]) (by decide)
    { mergePrev with out_time := some 1200000 } (by decide)

/-! ### C14: reauthentication -/

theorem isThrottle_iff (status : StatusValue) :
    isThrottle status = true ↔ carriesThrottle status := by
  cases status with
  | absent => simp [isThrottle, carriesThrottle]
  | str s => simp [isThrottle, carriesThrottle]
  | num n => simp [isThrottle, carriesThrottle]

/-- C14 (as the code behaves): for every response `first` to the first request,
`reAuthenticate` issues a second credential-exchange request if and only if `first`
carries the throttle status 10082: then it issues exactly two requests, with
`delay(300000)` (5 minutes) between them, and its result is decided by the second
response (a throw if the second request is rejected); otherwise it issues exactly one
request and no delay, and its result is decided by `first`.  Never a third request.
Decided by a response means: the token and pid of its data object when msg is
'Success', a throw when msg is 'Success' and it has no data object, `undefined`
otherwise. -/
theorem reAuthenticate_retries_once (provider : Nat → Option AuthResponse)
    (first : AuthResponse) (h0 : provider 0 = some first) :
    (carriesThrottle first.status →
        ((reAuthenticate provider).log.filter (· == AuthEffect.request)).length = 2 ∧
        (reAuthenticate provider).log.take 3 = [.request, .delay 300000, .request] ∧
        (provider 1 = none → (reAuthenticate provider).value = none) ∧
        ∀ second, provider 1 = some second → decidedBy second (reAuthenticate provider).value) ∧
      (¬ carriesThrottle first.status →
        ((reAuthenticate provider).log.filter (· == AuthEffect.request)).length = 1 ∧
        (∀ ms, AuthEffect.delay ms ∉ (reAuthenticate provider).log) ∧
        decidedBy first (reAuthenticate provider).value) := by
  refine ⟨?_, ?_⟩
  · intro ht
    have ht' : isThrottle first.status = true := (isThrottle_iff _).mpr ht
    unfold reAuthenticate decidedBy
    rw [h0]
    simp only [ht', if_true]
    cases h1 : provider 1 with
    | none => simp
    | some second =>
      by_cases hm : second.msg = some "Success"
      · cases hd : second.data with
        | none => simp [hm, hd]
        | some d => simp [hm, hd]
      · simp [hm]
  · intro ht
    have ht' : isThrottle first.status = false := by
      cases h : isThrottle first.status with
      | false => rfl
      | true => exact absurd ((isThrottle_iff _).mp h) ht
    unfold reAuthenticate decidedBy
    rw [h0]
    simp only [ht', Bool.false_eq_true, if_false]
    by_cases hm : first.msg = some "Success"
    · cases hd : first.data with
      | none => simp [hm, hd]
      | some d => simp [hm, hd]
    · simp [hm]

/-- An instance of C14: the first response carries the number 10082 and the second is
a 'Success' with token "tok" and pid "42". -/
theorem reAuthenticate_retries_once_witness :
    ((reAuthenticate throttleThenSuccess).log.filter (· == AuthEffect.request)).length = 2 ∧
      (reAuthenticate throttleThenSuccess).log.take 3 = [.request, .delay 300000, .request] ∧
      (reAuthenticate throttleThenSuccess).value = some (some ⟨some "tok", some "42"⟩) :=
  ⟨((reAuthenticate_retries_once throttleThenSuccess throttleResponse rfl).1 (Or.inl rfl)).1,
    ((reAuthenticate_retries_once throttleThenSuccess throttleResponse rfl).1 (Or.inl rfl)).2.1,
    ((((reAuthenticate_retries_once throttleThenSuccess throttleResponse rfl).1
      (Or.inl rfl)).2.2.2 successResponse rfl).1 rfl).1 _ rfl⟩

/-- C14 (the claim fails): the provider answers the only request with msg 'Success'
and no data object.  The result is not a token and pid: reading the token throws, the
catch rethrows, and `reAuthenticate` throws. -/
theorem reAuthenticate_success_without_data_throws :
    successWithoutData.msg = some "Success" ∧
      (reAuthenticate fun _ => some successWithoutData).log = [.request] ∧
      (reAuthenticate fun _ => some successWithoutData).value = none := by
  decide

end GpsGate
